import Mathlib

/-!
Verification of the minimap champion-localization subsystem of `lol_coach`
against its natural-language specification.

The development shallowly embeds the Python sources:

* `src/vision/map_semantics/minimap_coordinate_mapper.py` — coordinate
  normalization between a real minimap and the canonical 512×512 frame;
* `src/vision/map_semantics/minimap_description.py` — semantic location
  descriptions from labeled region polygons;
* `src/vision/robust_champion_detector.py` — circle overlap geometry,
  foreground/background classification, occlusion masks, the per-champion
  scoring loop and the distance engine.

Pure numeric Python code is translated to Lean functions over `ℚ` (exact
machine arithmetic on dictionary/loop logic) or `ℝ` (geometry that uses
`sqrt`/`arccos`/`π`).  Calls into external libraries (OpenCV, scikit-image,
shapely) that the repository does not implement are modelled as explicit
function parameters or, where their exact mathematical contract is forced by
the call (e.g. `cv2.findHomography` on nine exact correspondences), as that
mathematical function, with a comment at the definition.
-/

namespace LolCoach

/-! ## Coordinate mapper

Embeds `MinimapCoordinateMapper` from
`src/vision/map_semantics/minimap_coordinate_mapper.py`.
`reference_size` is the fixed canonical frame `(512, 512)`. -/

def reference_size : ℚ × ℚ := (512, 512)

/-- Embeds `MinimapCoordinateMapper.normalize_coordinates` (lines 63–77):
`norm_x = (x / width) * 512`, `norm_y = (y / height) * 512` where
`(width, height) = minimap_size`. -/
def normalize_coordinates (x y : ℚ) (minimap_size : ℚ × ℚ) : ℚ × ℚ :=
  (x / minimap_size.1 * reference_size.1, y / minimap_size.2 * reference_size.2)

/-- Embeds `MinimapCoordinateMapper.denormalize_coordinates` (lines 79–96).
The source computes `H = cv2.findHomography(reference_points, real_points)`
for the nine exact correspondences `(a, b) ↦ (a * width / 512, b * height / 512)`
(center, edge midpoints and corners of the two frames, lines 21–57) and applies
it with `cv2.perspectiveTransform`.  The unique homography through those nine
correspondences is the axis-aligned scaling `diag(width/512, height/512, 1)`,
so the external call is modelled as that scaling. -/
def denormalize_coordinates (x y : ℚ) (minimap_size : ℚ × ℚ) : ℚ × ℚ :=
  (x * minimap_size.1 / reference_size.1, y * minimap_size.2 / reference_size.2)

/-- C1: for every minimap size with positive width and height and every point,
`denormalize_coordinates` applied to `normalize_coordinates` of the point (with
the same size) returns the original point — here exactly, so in particular
within any tolerance. -/
theorem normalize_denormalize_roundtrip (x y : ℚ) (s : ℚ × ℚ)
    (hw : 0 < s.1) (hh : 0 < s.2) :
    denormalize_coordinates (normalize_coordinates x y s).1
      (normalize_coordinates x y s).2 s = (x, y) := by
  obtain ⟨w, h⟩ := s
  simp only [normalize_coordinates, denormalize_coordinates, reference_size] at *
  rw [Prod.mk.injEq]
  constructor <;> field_simp

/-- Witness for C1: the round trip at the concrete point `(37, 101)` on a
`200 × 300` minimap. -/
theorem normalize_denormalize_roundtrip_witness :
    denormalize_coordinates (normalize_coordinates 37 101 (200, 300)).1
      (normalize_coordinates 37 101 (200, 300)).2 (200, 300) = (37, 101) :=
  normalize_denormalize_roundtrip 37 101 (200, 300) (by norm_num) (by norm_num)

/-! ## Semantic location descriptions

Embeds `src/vision/map_semantics/minimap_description.py`.  A region is a
label together with a shapely polygon; shapely itself is an external library,
so the polygon type `Poly` and the two shapely operations the source calls —
`Point(p).within(polygon)` and `Point(p).distance(polygon)` — are parameters
of the embedding (`within`, `polyDist`). -/

/-- Embeds one element of the region list built by `parse_annotations`
(minimap_description.py lines 7–46): a `label` string and a polygon. -/
structure Region (Poly : Type) where
  label : String
  poly : Poly

/-- Order used by Python's `distances.sort()` in `find_closest_regions`
(line 59): tuples `(distance, label)` compare lexicographically, the label
breaking distance ties. -/
def tupleLe (a b : ℚ × String) : Prop :=
  a.1 < b.1 ∨ (a.1 = b.1 ∧ a.2 ≤ b.2)

instance : DecidableRel tupleLe := fun _ _ =>
  inferInstanceAs (Decidable (_ ∨ _))

instance : IsTotal (ℚ × String) tupleLe where
  total a b := by
    rcases lt_trichotomy a.1 b.1 with h | h | h
    · exact Or.inl (Or.inl h)
    · rcases le_total a.2 b.2 with h2 | h2
      · exact Or.inl (Or.inr ⟨h, h2⟩)
      · exact Or.inr (Or.inr ⟨h.symm, h2⟩)
    · exact Or.inr (Or.inl h)

instance : IsTrans (ℚ × String) tupleLe where
  trans a b c hab hbc := by
    rcases hab with h1 | ⟨h1, h1l⟩ <;> rcases hbc with h2 | ⟨h2, h2l⟩
    · exact Or.inl (h1.trans h2)
    · exact Or.inl (h2 ▸ h1)
    · exact Or.inl (h1 ▸ h2)
    · exact Or.inr ⟨h1.trans h2, h1l.trans h2l⟩

/-- Embeds `find_closest_regions(point, regions, n)` (minimap_description.py
lines 48–60): build the `(distance, label)` list, sort it (Python's stable
`sort()` on tuples, i.e. lexicographically — `tupleLe`), and return the labels
of the first `n` entries. -/
def find_closest_regions {Poly : Type} (polyDist : ℚ → ℚ → Poly → ℚ)
    (x y : ℚ) (regions : List (Region Poly)) (n : ℕ) : List String :=
  let distances := regions.map fun r => (polyDist x y r.poly, r.label)
  ((distances.insertionSort tupleLe).take n).map Prod.snd

/-- Embeds `get_location_description(x, y, regions, n_closest)`
(minimap_description.py lines 62–94).  `containing` is the label list of the
regions whose polygon strictly contains the point (shapely `within`); an empty
list falls through to the closest-regions description.  Python's
`lst[-1]` on the nonempty lists of those branches is embedded as
`getLast?.getD ""` (the branches are reached with nonempty lists except for
`closest_regions = []`, where the Python raises `IndexError`; claims about
this function assume a nonempty region list, as the static annotation file
provides). -/
def get_location_description {Poly : Type} (within : ℚ → ℚ → Poly → Bool)
    (polyDist : ℚ → ℚ → Poly → ℚ) (x y : ℚ) (regions : List (Region Poly))
    (n_closest : ℕ) : String :=
  let containing := (regions.filter fun r => within x y r.poly).map Region.label
  if containing ≠ [] then
    if containing.length = 1 then "inside " ++ containing.headD ""
    else "inside " ++ String.intercalate ", " containing.dropLast ++ " and " ++
      (containing.getLast?.getD "")
  else
    let closest := find_closest_regions polyDist x y regions n_closest
    if closest.length = 1 then "near " ++ closest.headD ""
    else "between " ++ String.intercalate ", " closest.dropLast ++ " and " ++
      (closest.getLast?.getD "")

/-- Embeds the closure returned by `create_minimap_descriptor` (lines 96–111),
which is what `MinimapCoordinateMapper.describe_location` calls on the
normalized point: `get_location_description` with its default `n_closest = 3`. -/
def describe_location_normalized {Poly : Type} (within : ℚ → ℚ → Poly → Bool)
    (polyDist : ℚ → ℚ → Poly → ℚ) (regions : List (Region Poly))
    (x y : ℚ) : String :=
  get_location_description within polyDist x y regions 3

/-- C9: the location description of a canonical point.  Strictly inside exactly
one region polygon gives "inside that label"; inside several joins the labels in
one "inside" description; inside none, the named labels are those of the (up to
three) regions closest by point-to-polygon distance — every named region's
distance is at most every unnamed region's — rendered as "near L" when exactly
one label is named and "between …, … and L" when several are. -/
theorem get_location_description_spec {Poly : Type}
    (within : ℚ → ℚ → Poly → Bool) (polyDist : ℚ → ℚ → Poly → ℚ)
    (x y : ℚ) (regions : List (Region Poly)) :
    (∀ l, ((regions.filter fun r => within x y r.poly).map Region.label) = [l] →
        get_location_description within polyDist x y regions 3 = "inside " ++ l)
    ∧
    (∀ ls, ((regions.filter fun r => within x y r.poly).map Region.label) = ls →
        2 ≤ ls.length →
        get_location_description within polyDist x y regions 3 =
          "inside " ++ String.intercalate ", " ls.dropLast ++ " and " ++
            (ls.getLast?.getD ""))
    ∧
    ((regions.filter fun r => within x y r.poly) = [] →
      ∃ sorted : List (ℚ × String),
        sorted.Perm (regions.map fun r => (polyDist x y r.poly, r.label)) ∧
        sorted.Sorted tupleLe ∧
        find_closest_regions polyDist x y regions 3 = (sorted.take 3).map Prod.snd ∧
        (∀ a ∈ sorted.take 3, ∀ b ∈ sorted.drop 3, a.1 ≤ b.1) ∧
        (∀ l, (sorted.take 3).map Prod.snd = [l] →
            get_location_description within polyDist x y regions 3 = "near " ++ l) ∧
        (∀ ls, (sorted.take 3).map Prod.snd = ls → 2 ≤ ls.length →
            get_location_description within polyDist x y regions 3 =
              "between " ++ String.intercalate ", " ls.dropLast ++ " and " ++
                (ls.getLast?.getD ""))) := by
  refine ⟨?_, ?_, ?_⟩
  · intro l hl
    simp [get_location_description, hl]
  · intro ls hls hlen
    have hne : ls ≠ [] := by
      intro h; rw [h] at hlen; simp at hlen
    have hone : ¬ ls.length = 1 := by omega
    simp [get_location_description, hls, hne, hone]
  · intro hempty
    refine ⟨(regions.map fun r => (polyDist x y r.poly, r.label)).insertionSort tupleLe,
      List.perm_insertionSort _ _, List.sorted_insertionSort _ _, by rfl, ?_, ?_, ?_⟩
    · intro a ha b hb
      have := (List.sorted_insertionSort tupleLe
        (regions.map fun r => (polyDist x y r.poly, r.label))).rel_of_mem_take_of_mem_drop
        ha hb
      rcases this with h | ⟨h, _⟩
      · exact le_of_lt h
      · exact le_of_eq h
    · intro l hl
      simp [get_location_description, hempty, find_closest_regions, hl]
    · intro ls hls hlen
      have hone : ¬ ls.length = 1 := by omega
      simp [get_location_description, hempty, find_closest_regions, hls, hone]

/-! ## Distance engine

Embeds `calculate_champion_distances` from
`src/vision/robust_champion_detector.py` (lines 50–93).  The Python positions
dictionary maps champion names to `(x, y)` pairs or `None`; a name that is
missing and a name mapped to `None` behave identically there
(`champ not in positions_xy or positions_xy[champ] is None`), so the
dictionary is embedded as one function into `Option (ℝ × ℝ)`. -/

/-- Embeds the constant `PIXELS_TO_UNITS = 15000 / 512` (line 77). -/
noncomputable def PIXELS_TO_UNITS : ℝ := 15000 / 512

/-- Embeds the per-target body of the loop in `calculate_champion_distances`
(lines 79–91): `None` for an absent reference or target, otherwise the
Euclidean pixel distance scaled by `PIXELS_TO_UNITS`. -/
noncomputable def champion_distance (positions : String → Option (ℝ × ℝ))
    (reference target : String) : Option ℝ :=
  match positions reference with
  | none => none
  | some (ref_x, ref_y) =>
    match positions target with
    | none => none
    | some (target_x, target_y) =>
      some (((target_x - ref_x) ^ 2 + (target_y - ref_y) ^ 2) ^ ((1 : ℝ) / 2)
        * PIXELS_TO_UNITS)

/-- Embeds `calculate_champion_distances(positions_xy, reference_champion,
target_champions)` (lines 50–93): the result dictionary, as the association
list over the target list (an absent reference champion yields `None` for
every target, lines 69–70). -/
noncomputable def calculate_champion_distances
    (positions : String → Option (ℝ × ℝ)) (reference : String)
    (targets : List String) : List (String × Option ℝ) :=
  match positions reference with
  | none => targets.map fun champ => (champ, none)
  | some _ => targets.map fun champ => (champ, champion_distance positions reference champ)

lemma lookup_map_pair {β : Type} (f : String → β) (l : List String) (c : String)
    (hc : c ∈ l) :
    (l.map fun champ => (champ, f champ)).lookup c = some (f c) := by
  induction l with
  | nil => cases hc
  | cons t ts ih =>
    by_cases hct : c = t
    · subst hct; simp [List.lookup]
    · have hbeq : (c == t) = false := beq_eq_false_iff_ne.mpr hct
      have hmem : c ∈ ts := by
        rcases List.mem_cons.mp hc with h | h
        · exact absurd h hct
        · exact h
      simp [List.lookup, hbeq, ih hmem]

lemma lookup_calculate_champion_distances (positions : String → Option (ℝ × ℝ))
    (reference : String) (targets : List String) (c : String) (hc : c ∈ targets) :
    (calculate_champion_distances positions reference targets).lookup c =
      some (champion_distance positions reference c) := by
  unfold calculate_champion_distances
  cases href : positions reference with
  | none =>
    have hdist : champion_distance positions reference c = none := by
      unfold champion_distance; rw [href]
    rw [hdist]
    exact lookup_map_pair (fun _ => (none : Option ℝ)) targets c hc
  | some p =>
    exact lookup_map_pair (fun champ => champion_distance positions reference champ)
      targets c hc

/-- C10: the distance dictionary holds, for every requested target, the value
`champion_distance` of the pair; that value is `None` when the target or the
reference is absent from the positions map; the distance from a present
champion to itself is `0`; and swapping reference and target gives the same
value. -/
theorem calculate_champion_distances_spec
    (positions : String → Option (ℝ × ℝ)) (a b : String)
    (targets : List String) (hb : b ∈ targets) :
    (calculate_champion_distances positions a targets).lookup b =
      some (champion_distance positions a b)
    ∧ (positions b = none → champion_distance positions a b = none)
    ∧ (positions a = none → champion_distance positions a b = none)
    ∧ (∀ p, positions a = some p → champion_distance positions a a = some 0)
    ∧ champion_distance positions a b = champion_distance positions b a := by
  refine ⟨lookup_calculate_champion_distances positions a targets b hb, ?_, ?_, ?_, ?_⟩
  · intro h
    unfold champion_distance
    cases ha : positions a with
    | none => rfl
    | some p => obtain ⟨px, py⟩ := p; rw [h]
  · intro h
    unfold champion_distance
    rw [h]
  · intro p hp
    obtain ⟨px, py⟩ := p
    unfold champion_distance
    rw [hp]
    dsimp only
    have h0 : ((px - px) ^ 2 + (py - py) ^ 2 : ℝ) = 0 := by ring
    rw [h0, Real.zero_rpow (by norm_num), zero_mul]
  · unfold champion_distance
    cases ha : positions a with
    | none =>
      cases hbp : positions b with
      | none => rfl
      | some q => obtain ⟨qx, qy⟩ := q; dsimp only
    | some p =>
      obtain ⟨px, py⟩ := p
      cases hbp : positions b with
      | none => rfl
      | some q =>
        obtain ⟨qx, qy⟩ := q
        dsimp only
        have hsym : ((qx - px) ^ 2 + (qy - py) ^ 2 : ℝ) =
            (px - qx) ^ 2 + (py - qy) ^ 2 := by ring
        rw [hsym]

/-- Concrete positions map for the C10 witness: two visible champions. -/
noncomputable def examplePositions : String → Option (ℝ × ℝ) := fun s =>
  if s = "Ahri" then some (0, 0) else if s = "Ziggs" then some (3, 4) else none

/-- Witness for C10: the self-distance of a present champion is `0`, at the
concrete positions map `examplePositions`. -/
theorem calculate_champion_distances_spec_witness :
    champion_distance examplePositions "Ahri" "Ahri" = some 0 :=
  (calculate_champion_distances_spec examplePositions "Ahri" "Ziggs" ["Ziggs"]
    (by simp)).2.2.2.1 (0, 0) (by simp [examplePositions])

/-! ## Circle overlap geometry

Embeds `compute_circle_overlap(circle1, circle2)` from
`src/vision/robust_champion_detector.py` (lines 127–170).  A circle is a
`(x, y, r)` triple; the source converts all components with `map(float, ...)`,
so the embedding is over `ℝ`. -/

/-- Embeds the center distance `np.sqrt(dx * dx + dy * dy)` of
`compute_circle_overlap` (lines 141–144). -/
noncomputable def center_distance (c1 c2 : ℝ × ℝ × ℝ) : ℝ :=
  Real.sqrt ((c2.1 - c1.1) * (c2.1 - c1.1) + (c2.2.1 - c1.2.1) * (c2.2.1 - c1.2.1))

/-- Embeds the partial-overlap intersection area `term1 + term2 - term3` of
`compute_circle_overlap` (lines 155–167) as a function of the center distance
`d` and the radii. -/
noncomputable def lens_area (d r1 r2 : ℝ) : ℝ :=
  r1 ^ 2 * Real.arccos ((d ^ 2 + r1 ^ 2 - r2 ^ 2) / (2 * d * r1))
    + r2 ^ 2 * Real.arccos ((d ^ 2 + r2 ^ 2 - r1 ^ 2) / (2 * d * r2))
    - 0.5 * Real.sqrt ((-d + r1 + r2) * (d + r1 - r2) * (d - r1 + r2) * (d + r1 + r2))

open Classical in
/-- Embeds `compute_circle_overlap` (lines 127–170): `0` with no overlap
(`distance >= r1 + r2`), the area ratio of the smaller to the larger circle in
the containment case (`distance <= abs(r1 - r2)`), and
`intersection_area / union_area` with
`union_area = pi * (r1^2 + r2^2) - intersection_area` in the partial case. -/
noncomputable def compute_circle_overlap (c1 c2 : ℝ × ℝ × ℝ) : ℝ :=
  if center_distance c1 c2 ≥ c1.2.2 + c2.2.2 then 0
  else if center_distance c1 c2 ≤ |c1.2.2 - c2.2.2| then
    Real.pi * min c1.2.2 c2.2.2 ^ 2 / (Real.pi * max c1.2.2 c2.2.2 ^ 2)
  else
    lens_area (center_distance c1 c2) c1.2.2 c2.2.2 /
      (Real.pi * (c1.2.2 ^ 2 + c2.2.2 ^ 2)
        - lens_area (center_distance c1 c2) c1.2.2 c2.2.2)

open Classical in
/-- Intersection area of two circles, following the specification's words: the
standard closed-form circle–circle intersection formula, with the no-overlap
and containment cases handled explicitly (the contained circle's full area). -/
noncomputable def circle_intersection_area (c1 c2 : ℝ × ℝ × ℝ) : ℝ :=
  if center_distance c1 c2 ≥ c1.2.2 + c2.2.2 then 0
  else if center_distance c1 c2 ≤ |c1.2.2 - c2.2.2| then
    Real.pi * min c1.2.2 c2.2.2 ^ 2
  else lens_area (center_distance c1 c2) c1.2.2 c2.2.2

/-- Union area of two circles: the sum of the disk areas minus the
intersection area (inclusion–exclusion), following the specification. -/
noncomputable def circle_union_area (c1 c2 : ℝ × ℝ × ℝ) : ℝ :=
  Real.pi * c1.2.2 ^ 2 + Real.pi * c2.2.2 ^ 2 - circle_intersection_area c1 c2

lemma nonneg_sub_sin_mul_cos (x : ℝ) (hx : 0 ≤ x) :
    0 ≤ x - Real.sin x * Real.cos x := by
  have h := Real.sin_le (by linarith : (0 : ℝ) ≤ 2 * x)
  rw [Real.sin_two_mul] at h
  linarith

lemma abs_sin_le_of_nonneg (t : ℝ) (ht : 0 ≤ t) : |Real.sin t| ≤ t := by
  rcases le_total t 1 with h1 | h1
  · have hpi : t ≤ Real.pi := by linarith [Real.pi_gt_three]
    rw [abs_of_nonneg (Real.sin_nonneg_of_nonneg_of_le_pi ht hpi)]
    exact Real.sin_le ht
  · calc |Real.sin t| ≤ 1 := abs_le.mpr ⟨Real.neg_one_le_sin t, Real.sin_le_one t⟩
    _ ≤ t := h1

lemma sin_sub_sin_le (a b : ℝ) (h : b ≤ a) :
    Real.sin a - Real.sin b ≤ a - b := by
  rw [Real.sin_sub_sin]
  have h1 : |Real.sin ((a - b) / 2)| ≤ (a - b) / 2 :=
    abs_sin_le_of_nonneg _ (by linarith)
  have h2 : |Real.cos ((a + b) / 2)| ≤ 1 := Real.abs_cos_le_one _
  calc 2 * Real.sin ((a - b) / 2) * Real.cos ((a + b) / 2)
      ≤ |2 * Real.sin ((a - b) / 2) * Real.cos ((a + b) / 2)| := le_abs_self _
    _ = 2 * (|Real.sin ((a - b) / 2)| * |Real.cos ((a + b) / 2)|) := by
        rw [abs_mul, abs_mul]
        norm_num [mul_assoc]
    _ ≤ 2 * ((a - b) / 2 * 1) := by
        have hm : |Real.sin ((a - b) / 2)| * |Real.cos ((a + b) / 2)| ≤ (a - b) / 2 * 1 :=
          mul_le_mul h1 h2 (abs_nonneg _) (by linarith)
        linarith
    _ = a - b := by ring

lemma sin_lt_sin_of_lt (a b : ℝ) (hb0 : 0 ≤ b) (hba : b < a) (hab : a + b < Real.pi) :
    Real.sin b < Real.sin a := by
  have hmem_b : b ∈ Set.Icc (-(Real.pi / 2)) (Real.pi / 2) := by
    constructor
    · linarith [Real.pi_pos]
    · by_contra hc
      push_neg at hc
      linarith
  rcases le_total a (Real.pi / 2) with ha | ha
  · exact Real.strictMonoOn_sin hmem_b ⟨by linarith [Real.pi_pos], ha⟩ hba
  · have h1 : Real.sin a = Real.sin (Real.pi - a) := (Real.sin_pi_sub a).symm
    rw [h1]
    have h2 : b < Real.pi - a := by linarith
    exact Real.strictMonoOn_sin hmem_b ⟨by linarith, by linarith⟩ h2

set_option maxHeartbeats 1000000 in
/-- Closed-form analysis of the partial-overlap branch: for radii `r1, r2 > 0`
and a center distance strictly between `|r1 - r2|` and `r1 + r2`, the
intersection area `lens_area` is nonnegative and at most half the summed disk
area `π * (r1² + r2²)` — hence at most the union area. -/
lemma lens_area_bounds (d r1 r2 : ℝ) (hr1 : 0 < r1) (hr2 : 0 < r2)
    (hlow : |r1 - r2| < d) (hhigh : d < r1 + r2) :
    0 ≤ lens_area d r1 r2 ∧ 2 * lens_area d r1 r2 ≤ Real.pi * (r1 ^ 2 + r2 ^ 2) := by
  have hd : 0 < d := lt_of_le_of_lt (abs_nonneg _) hlow
  have hr12 : r1 - r2 < d := lt_of_le_of_lt (le_abs_self _) hlow
  have hr21 : r2 - r1 < d := by
    have : r2 - r1 ≤ |r1 - r2| := by rw [abs_sub_comm]; exact le_abs_self _
    linarith
  set u : ℝ := (d ^ 2 + r1 ^ 2 - r2 ^ 2) / (2 * d * r1) with hu_def
  set v : ℝ := (d ^ 2 + r2 ^ 2 - r1 ^ 2) / (2 * d * r2) with hv_def
  have h2dr1 : (0 : ℝ) < 2 * d * r1 := by positivity
  have h2dr2 : (0 : ℝ) < 2 * d * r2 := by positivity
  have hu1 : u < 1 := by rw [hu_def, div_lt_one h2dr1]; nlinarith
  have hu2 : -1 < u := by rw [hu_def, lt_div_iff₀ h2dr1]; nlinarith
  have hv1 : v < 1 := by rw [hv_def, div_lt_one h2dr2]; nlinarith
  have hv2 : -1 < v := by rw [hv_def, lt_div_iff₀ h2dr2]; nlinarith
  set α : ℝ := Real.arccos u with hα_def
  set β : ℝ := Real.arccos v with hβ_def
  have hcosα : Real.cos α = u := Real.cos_arccos hu2.le hu1.le
  have hcosβ : Real.cos β = v := Real.cos_arccos hv2.le hv1.le
  have hsinα : Real.sin α = Real.sqrt (1 - u ^ 2) := Real.sin_arccos u
  have hsinβ : Real.sin β = Real.sqrt (1 - v ^ 2) := Real.sin_arccos v
  have hα0 : 0 ≤ α := Real.arccos_nonneg u
  have hβ0 : 0 ≤ β := Real.arccos_nonneg v
  have hαpi : α ≤ Real.pi := Real.arccos_le_pi u
  have hβpi : β ≤ Real.pi := Real.arccos_le_pi v
  have hsinα_pos : 0 < Real.sin α := by
    have hu : u ^ 2 < 1 := (sq_lt_one_iff_abs_lt_one u).mpr (abs_lt.mpr ⟨hu2, hu1⟩)
    rw [hsinα]; exact Real.sqrt_pos.mpr (by linarith)
  have hsinβ_pos : 0 < Real.sin β := by
    have hv : v ^ 2 < 1 := (sq_lt_one_iff_abs_lt_one v).mpr (abs_lt.mpr ⟨hv2, hv1⟩)
    rw [hsinβ]; exact Real.sqrt_pos.mpr (by linarith)
  set P : ℝ := (-d + r1 + r2) * (d + r1 - r2) * (d - r1 + r2) * (d + r1 + r2)
    with hP_def
  have hP_eq1 : P = (2 * d * r1) ^ 2 * (1 - u ^ 2) := by
    rw [hP_def, hu_def]; field_simp; ring
  have hP_eq2 : P = (2 * d * r2) ^ 2 * (1 - v ^ 2) := by
    rw [hP_def, hv_def]; field_simp; ring
  have hsqrtP1 : Real.sqrt P = 2 * d * r1 * Real.sin α := by
    rw [hP_eq1, hsinα, Real.sqrt_mul (sq_nonneg _), Real.sqrt_sq h2dr1.le]
  have hsqrtP2 : Real.sqrt P = 2 * d * r2 * Real.sin β := by
    rw [hP_eq2, hsinβ, Real.sqrt_mul (sq_nonneg _), Real.sqrt_sq h2dr2.le]
  have h_d_eq : d = r1 * u + r2 * v := by
    rw [hu_def, hv_def]; field_simp; ring
  have h_sin_eq : r1 * Real.sin α = r2 * Real.sin β := by
    have h := hsqrtP1.symm.trans hsqrtP2
    have h2d : (2 * d : ℝ) ≠ 0 := by positivity
    apply mul_left_cancel₀ h2d
    calc 2 * d * (r1 * Real.sin α) = 2 * d * r1 * Real.sin α := by ring
      _ = 2 * d * r2 * Real.sin β := h
      _ = 2 * d * (r2 * Real.sin β) := by ring
  have hlens : lens_area d r1 r2 = r1 ^ 2 * α + r2 ^ 2 * β - d * r1 * Real.sin α := by
    rw [lens_area, ← hu_def, ← hv_def, ← hα_def, ← hβ_def, ← hP_def, hsqrtP1]
    ring
  have hkey : d * r1 * Real.sin α =
      r1 ^ 2 * (Real.sin α * Real.cos α) + r2 ^ 2 * (Real.sin β * Real.cos β) := by
    rw [hcosα, hcosβ]
    calc d * r1 * Real.sin α = (r1 * u + r2 * v) * r1 * Real.sin α := by rw [← h_d_eq]
      _ = r1 ^ 2 * (Real.sin α * u) + v * r2 * (r1 * Real.sin α) := by ring
      _ = r1 ^ 2 * (Real.sin α * u) + v * r2 * (r2 * Real.sin β) := by rw [h_sin_eq]
      _ = r1 ^ 2 * (Real.sin α * u) + r2 ^ 2 * (Real.sin β * v) := by ring
  have hlens2 : lens_area d r1 r2 =
      r1 ^ 2 * (α - Real.sin α * Real.cos α) + r2 ^ 2 * (β - Real.sin β * Real.cos β) := by
    rw [hlens, hkey]; ring
  have ht1 : 0 ≤ α - Real.sin α * Real.cos α := nonneg_sub_sin_mul_cos α hα0
  have ht2 : 0 ≤ β - Real.sin β * Real.cos β := nonneg_sub_sin_mul_cos β hβ0
  have hnonneg : 0 ≤ lens_area d r1 r2 := by
    rw [hlens2]
    have := mul_nonneg (sq_nonneg r1) ht1
    have := mul_nonneg (sq_nonneg r2) ht2
    linarith
  refine ⟨hnonneg, ?_⟩
  have huv : 0 < u + v := by
    have huv_eq : u + v = (r1 + r2) * (d ^ 2 - (r1 - r2) ^ 2) / (2 * d * r1 * r2) := by
      rw [hu_def, hv_def]; field_simp; ring
    rw [huv_eq]
    have hnum : 0 < d ^ 2 - (r1 - r2) ^ 2 := by
      have h1 := mul_self_lt_mul_self (abs_nonneg (r1 - r2)) hlow
      rw [abs_mul_abs_self] at h1
      have h2 : (r1 - r2) ^ 2 < d ^ 2 := by rw [pow_two, pow_two]; exact h1
      exact sub_pos.mpr h2
    positivity
  have hαβ : α + β < Real.pi := by
    by_contra hc
    push_neg at hc
    have h1 : Real.pi - α ≤ β := by linarith
    have h2 : Real.cos β ≤ Real.cos (Real.pi - α) :=
      Real.cos_le_cos_of_nonneg_of_le_pi (by linarith) hβpi h1
    rw [Real.cos_pi_sub, hcosα, hcosβ] at h2
    linarith
  -- the bound `2 * lens ≤ π (r1² + r2²)` by cases on which radius is larger
  have main : r1 ^ 2 * (2 * α - Real.sin (2 * α)) + r2 ^ 2 * (2 * β - Real.sin (2 * β))
      ≤ Real.pi * (r1 ^ 2 + r2 ^ 2) := by
    rcases le_total r2 r1 with hr | hr
    · -- r2 ≤ r1, hence sin α ≤ sin β and α ≤ β
      have hsins : Real.sin α ≤ Real.sin β := by
        have h1 : r2 * Real.sin β ≤ r1 * Real.sin β :=
          mul_le_mul_of_nonneg_right hr hsinβ_pos.le
        have h2 : r1 * Real.sin α ≤ r1 * Real.sin β := by rw [h_sin_eq]; exact h1
        exact le_of_mul_le_mul_left h2 hr1
      have hαβ' : α ≤ β := by
        by_contra hba
        push_neg at hba
        have := sin_lt_sin_of_lt α β hβ0 hba (by linarith)
        linarith
      have h2α : 2 * α < Real.pi := by linarith
      have hfα : 2 * α - Real.sin (2 * α) ≤ Real.pi := by
        have hs : 0 ≤ Real.sin (2 * α) :=
          Real.sin_nonneg_of_nonneg_of_le_pi (by linarith) (by linarith)
        linarith
      have hfβ : 2 * β - Real.sin (2 * β) ≤ 2 * Real.pi - (2 * α - Real.sin (2 * α)) := by
        have h1 : 2 * β ≤ 2 * (Real.pi - α) := by linarith
        have h2 := sin_sub_sin_le (2 * (Real.pi - α)) (2 * β) h1
        have h3 : Real.sin (2 * (Real.pi - α)) = -Real.sin (2 * α) := by
          rw [show 2 * (Real.pi - α) = 2 * Real.pi - 2 * α by ring]
          rw [Real.sin_sub, Real.sin_two_pi, Real.cos_two_pi]
          ring
        rw [h3] at h2
        linarith
      have e1 : r2 ^ 2 * (2 * β - Real.sin (2 * β))
          ≤ r2 ^ 2 * (2 * Real.pi - (2 * α - Real.sin (2 * α))) :=
        mul_le_mul_of_nonneg_left hfβ (sq_nonneg r2)
      have e2 : (r1 ^ 2 - r2 ^ 2) * (2 * α - Real.sin (2 * α))
          ≤ (r1 ^ 2 - r2 ^ 2) * Real.pi :=
        mul_le_mul_of_nonneg_left hfα
          (sub_nonneg.mpr (pow_le_pow_left₀ hr2.le hr 2))
      linarith [e1, e2]
    · -- r1 ≤ r2, the mirror argument
      have hsins : Real.sin β ≤ Real.sin α := by
        have h1 : r1 * Real.sin α ≤ r2 * Real.sin α :=
          mul_le_mul_of_nonneg_right hr hsinα_pos.le
        have h2 : r2 * Real.sin β ≤ r2 * Real.sin α := by rw [← h_sin_eq]; exact h1
        exact le_of_mul_le_mul_left h2 hr2
      have hβα' : β ≤ α := by
        by_contra hab
        push_neg at hab
        have := sin_lt_sin_of_lt β α hα0 hab (by linarith)
        linarith
      have h2β : 2 * β < Real.pi := by linarith
      have hfβ : 2 * β - Real.sin (2 * β) ≤ Real.pi := by
        have hs : 0 ≤ Real.sin (2 * β) :=
          Real.sin_nonneg_of_nonneg_of_le_pi (by linarith) (by linarith)
        linarith
      have hfα : 2 * α - Real.sin (2 * α) ≤ 2 * Real.pi - (2 * β - Real.sin (2 * β)) := by
        have h1 : 2 * α ≤ 2 * (Real.pi - β) := by linarith
        have h2 := sin_sub_sin_le (2 * (Real.pi - β)) (2 * α) h1
        have h3 : Real.sin (2 * (Real.pi - β)) = -Real.sin (2 * β) := by
          rw [show 2 * (Real.pi - β) = 2 * Real.pi - 2 * β by ring]
          rw [Real.sin_sub, Real.sin_two_pi, Real.cos_two_pi]
          ring
        rw [h3] at h2
        linarith
      have e1 : r1 ^ 2 * (2 * α - Real.sin (2 * α))
          ≤ r1 ^ 2 * (2 * Real.pi - (2 * β - Real.sin (2 * β))) :=
        mul_le_mul_of_nonneg_left hfα (sq_nonneg r1)
      have e2 : (r2 ^ 2 - r1 ^ 2) * (2 * β - Real.sin (2 * β))
          ≤ (r2 ^ 2 - r1 ^ 2) * Real.pi :=
        mul_le_mul_of_nonneg_left hfβ
          (sub_nonneg.mpr (pow_le_pow_left₀ hr1.le hr 2))
      linarith [e1, e2]
  have hs2α : Real.sin (2 * α) = 2 * Real.sin α * Real.cos α := Real.sin_two_mul α
  have hs2β : Real.sin (2 * β) = 2 * Real.sin β * Real.cos β := Real.sin_two_mul β
  rw [hs2α, hs2β] at main
  rw [hlens2]
  linarith [main]

/-- C8: for positive radii, `compute_circle_overlap` always lies in `[0, 1]`;
it is `0` when the center distance is at least the radius sum, exactly `1` for
two identical circles, and whenever the circles do overlap it equals the
intersection area divided by the union area (closed-form circle–circle
intersection, containment handled explicitly). -/
theorem compute_circle_overlap_spec (c1 c2 : ℝ × ℝ × ℝ)
    (hr1 : 0 < c1.2.2) (hr2 : 0 < c2.2.2) :
    (0 ≤ compute_circle_overlap c1 c2 ∧ compute_circle_overlap c1 c2 ≤ 1)
    ∧ (center_distance c1 c2 ≥ c1.2.2 + c2.2.2 → compute_circle_overlap c1 c2 = 0)
    ∧ (c1 = c2 → compute_circle_overlap c1 c2 = 1)
    ∧ (center_distance c1 c2 < c1.2.2 + c2.2.2 →
        compute_circle_overlap c1 c2 =
          circle_intersection_area c1 c2 / circle_union_area c1 c2) := by
  set d := center_distance c1 c2 with hd_def
  set r1 := c1.2.2 with hr1_def
  set r2 := c2.2.2 with hr2_def
  have hdd : ∀ c : ℝ × ℝ × ℝ, center_distance c c = 0 := by
    intro c
    unfold center_distance
    simp
  by_cases hb1 : d ≥ r1 + r2
  · have hov : compute_circle_overlap c1 c2 = 0 := by
      unfold compute_circle_overlap
      rw [← hd_def, ← hr1_def, ← hr2_def, if_pos hb1]
    refine ⟨⟨by rw [hov], by rw [hov]; norm_num⟩, fun _ => hov, ?_, ?_⟩
    · intro h
      exfalso
      rw [h] at hd_def
      rw [hdd c2] at hd_def
      rw [hd_def] at hb1
      have : r2 = c2.2.2 := hr2_def
      nlinarith
    · intro h
      exact absurd h (not_lt.mpr hb1)
  · have hlt : d < r1 + r2 := lt_of_not_ge hb1
    by_cases hb2 : d ≤ |r1 - r2|
    · -- containment branch
      have hov : compute_circle_overlap c1 c2 =
          Real.pi * min r1 r2 ^ 2 / (Real.pi * max r1 r2 ^ 2) := by
        unfold compute_circle_overlap
        rw [← hd_def, ← hr1_def, ← hr2_def, if_neg hb1, if_pos hb2]
      have hinter : circle_intersection_area c1 c2 = Real.pi * min r1 r2 ^ 2 := by
        unfold circle_intersection_area
        rw [← hd_def, ← hr1_def, ← hr2_def, if_neg hb1, if_pos hb2]
      have hminmax : min r1 r2 ^ 2 + max r1 r2 ^ 2 = r1 ^ 2 + r2 ^ 2 := by
        rcases le_total r1 r2 with h | h <;>
          simp [min_eq_left, min_eq_right, max_eq_left, max_eq_right, h] <;> ring
      have hminpos : 0 < min r1 r2 := lt_min hr1 hr2
      have hmaxpos : 0 < max r1 r2 := lt_of_lt_of_le hr1 (le_max_left _ _)
      refine ⟨⟨?_, ?_⟩, ?_, ?_, ?_⟩
      · rw [hov]; positivity
      · rw [hov]
        rw [div_le_one (by positivity)]
        have : min r1 r2 ^ 2 ≤ max r1 r2 ^ 2 :=
          pow_le_pow_left₀ hminpos.le (min_le_max) 2
        nlinarith [Real.pi_pos]
      · intro h
        exact absurd h (not_le.mpr hlt)
      · intro h
        rw [hov]
        have heq : r1 = r2 := by rw [hr1_def, hr2_def, h]
        rw [← heq, min_self, max_self]
        exact div_self (by positivity)
      · intro _
        rw [hov, hinter]
        unfold circle_union_area
        rw [hinter, ← hr1_def, ← hr2_def]
        have hden : Real.pi * r1 ^ 2 + Real.pi * r2 ^ 2 - Real.pi * min r1 r2 ^ 2 =
            Real.pi * max r1 r2 ^ 2 := by linear_combination (-Real.pi) * hminmax
        rw [hden]
    · -- partial-overlap branch
      have hlow : |r1 - r2| < d := lt_of_not_ge hb2
      obtain ⟨h0, h2⟩ := lens_area_bounds d r1 r2 hr1 hr2 hlow hlt
      have hov : compute_circle_overlap c1 c2 =
          lens_area d r1 r2 / (Real.pi * (r1 ^ 2 + r2 ^ 2) - lens_area d r1 r2) := by
        unfold compute_circle_overlap
        rw [← hd_def, ← hr1_def, ← hr2_def, if_neg hb1, if_neg hb2]
      have hinter : circle_intersection_area c1 c2 = lens_area d r1 r2 := by
        unfold circle_intersection_area
        rw [← hd_def, ← hr1_def, ← hr2_def, if_neg hb1, if_neg hb2]
      have hsumpos : 0 < Real.pi * (r1 ^ 2 + r2 ^ 2) := by positivity
      have hupos : 0 < Real.pi * (r1 ^ 2 + r2 ^ 2) - lens_area d r1 r2 := by linarith
      refine ⟨⟨?_, ?_⟩, ?_, ?_, ?_⟩
      · rw [hov]; exact div_nonneg h0 hupos.le
      · rw [hov, div_le_one hupos]; linarith
      · intro h
        exact absurd h (not_le.mpr hlt)
      · intro h
        exfalso
        rw [h] at hd_def
        rw [hdd c2] at hd_def
        rw [hd_def] at hlow
        exact absurd hlow (not_lt.mpr (abs_nonneg _))
      · intro _
        rw [hov]
        unfold circle_union_area
        rw [hinter, ← hr1_def, ← hr2_def]
        have : Real.pi * r1 ^ 2 + Real.pi * r2 ^ 2 - lens_area d r1 r2 =
            Real.pi * (r1 ^ 2 + r2 ^ 2) - lens_area d r1 r2 := by ring
        rw [this]

/-- Witness for C8: two unit circles whose centers are `3` apart do not
overlap, so `compute_circle_overlap` is `0` there. -/
theorem compute_circle_overlap_spec_witness :
    compute_circle_overlap ((0 : ℝ), (0 : ℝ), (1 : ℝ)) ((3 : ℝ), (0 : ℝ), (1 : ℝ)) = 0 := by
  have hcd : center_distance ((0 : ℝ), (0 : ℝ), (1 : ℝ)) ((3 : ℝ), (0 : ℝ), (1 : ℝ)) = 3 := by
    unfold center_distance
    norm_num
    rw [show (9 : ℝ) = 3 ^ 2 by norm_num, Real.sqrt_sq (by norm_num : (0 : ℝ) ≤ 3)]
  exact (compute_circle_overlap_spec ((0 : ℝ), (0 : ℝ), (1 : ℝ))
    ((3 : ℝ), (0 : ℝ), (1 : ℝ)) (by norm_num) (by norm_num)).2.1
    (by rw [hcd]; norm_num)

/-! ## Foreground/background classification

Embeds `classify_overlapping_circles(candidates)` from
`src/vision/robust_champion_detector.py` (lines 173–212).  A candidate is an
`(x, y, r, score)` tuple; the nested `for i / for j in range(i+1, n)` loop is
the fold of `demotion_step` over `index_pairs`, and the loop body — which
demotes one index of an overlapping pair to background — is
`overlap_demotion`: `some true` demotes the first element of the pair
(`is_foreground[i] = False`), `some false` the second, `none` neither. -/

open Classical in
/-- Embeds the body of the pair loop (lines 195–209): with overlap ratio above
`0.15`, near-total overlap (`> 0.8`) demotes the lower-scored candidate and a
moderate overlap demotes the larger-radius candidate; in both rules the tie
falls on the second element of the pair, as the Python `else` branch does. -/
noncomputable def overlap_demotion (ci cj : ℝ × ℝ × ℝ × ℝ) : Option Bool :=
  if compute_circle_overlap (ci.1, ci.2.1, ci.2.2.1) (cj.1, cj.2.1, cj.2.2.1) > 0.15 then
    some (if compute_circle_overlap (ci.1, ci.2.1, ci.2.2.1) (cj.1, cj.2.1, cj.2.2.1) > 0.8 then
            (if ci.2.2.2 < cj.2.2.2 then true else false)
          else
            (if ci.2.2.1 > cj.2.2.1 then true else false))
  else none

/-- Embeds the index ranges of the pair loop (lines 193–194):
`for i in range(n): for j in range(i+1, n)`. -/
def index_pairs (n : ℕ) : List (ℕ × ℕ) :=
  (List.range n).flatMap fun i => (List.range' (i + 1) (n - (i + 1))).map fun j => (i, j)

lemma mem_index_pairs (n i j : ℕ) : (i, j) ∈ index_pairs n ↔ i < j ∧ j < n := by
  simp [index_pairs, List.mem_flatMap, List.mem_map, List.mem_range, List.mem_range'_1]
  omega

/-- One iteration of the pair loop on the `is_foreground` array (lines
198–209). -/
noncomputable def demotion_step (candidates : List (ℝ × ℝ × ℝ × ℝ))
    (fg : List Bool) (ij : ℕ × ℕ) : List Bool :=
  match overlap_demotion (candidates.getD ij.1 (0, 0, 0, 0))
      (candidates.getD ij.2 (0, 0, 0, 0)) with
  | some true => fg.set ij.1 false
  | some false => fg.set ij.2 false
  | none => fg

/-- Which index (if any) the handling of pair `ij` demotes. -/
noncomputable def demotion_target (candidates : List (ℝ × ℝ × ℝ × ℝ))
    (ij : ℕ × ℕ) : Option ℕ :=
  match overlap_demotion (candidates.getD ij.1 (0, 0, 0, 0))
      (candidates.getD ij.2 (0, 0, 0, 0)) with
  | some true => some ij.1
  | some false => some ij.2
  | none => none

/-- Embeds the `is_foreground` array of `classify_overlapping_circles` after
the whole pair loop (lines 189–209). -/
noncomputable def classify_foreground (candidates : List (ℝ × ℝ × ℝ × ℝ)) : List Bool :=
  (index_pairs candidates.length).foldl (demotion_step candidates)
    (List.replicate candidates.length true)

/-- Embeds `classify_overlapping_circles` (lines 173–212): each candidate
zipped with its final foreground flag. -/
noncomputable def classify_overlapping_circles (candidates : List (ℝ × ℝ × ℝ × ℝ)) :
    List (ℝ × ℝ × ℝ × ℝ × Bool) :=
  (candidates.zip (classify_foreground candidates)).map fun cb =>
    (cb.1.1, cb.1.2.1, cb.1.2.2.1, cb.1.2.2.2, cb.2)

lemma demotion_target_mem (candidates : List (ℝ × ℝ × ℝ × ℝ)) (ij : ℕ × ℕ) (k : ℕ)
    (h : demotion_target candidates ij = some k) : k = ij.1 ∨ k = ij.2 := by
  unfold demotion_target at h
  rcases hod : overlap_demotion (candidates.getD ij.1 (0, 0, 0, 0))
      (candidates.getD ij.2 (0, 0, 0, 0)) with _ | b
  · rw [hod] at h; exact absurd h (by simp)
  · rw [hod] at h
    cases b
    · right; simpa using h.symm
    · left; simpa using h.symm

lemma demotion_step_getElem_true (candidates : List (ℝ × ℝ × ℝ × ℝ))
    (fg : List Bool) (ij : ℕ × ℕ) (k : ℕ) :
    (demotion_step candidates fg ij)[k]? = some true ↔
      fg[k]? = some true ∧ demotion_target candidates ij ≠ some k := by
  unfold demotion_step demotion_target
  rcases hod : overlap_demotion (candidates.getD ij.1 (0, 0, 0, 0))
      (candidates.getD ij.2 (0, 0, 0, 0)) with _ | b
  · simp
  · cases b
    · -- the second index is demoted
      simp only
      by_cases hik : ij.2 = k
      · subst hik
        rw [List.getElem?_set]
        simp only [if_pos rfl]
        by_cases hlt : ij.2 < fg.length
        · simp [hlt]
        · simp [hlt, List.getElem?_eq_none (by omega : fg.length ≤ ij.2)]
      · rw [List.getElem?_set_ne hik]
        simp [hik]
    · -- the first index is demoted
      simp only
      by_cases hik : ij.1 = k
      · subst hik
        rw [List.getElem?_set]
        simp only [if_pos rfl]
        by_cases hlt : ij.1 < fg.length
        · simp [hlt]
        · simp [hlt, List.getElem?_eq_none (by omega : fg.length ≤ ij.1)]
      · rw [List.getElem?_set_ne hik]
        simp [hik]

lemma foldl_demotion_getElem_true (candidates : List (ℝ × ℝ × ℝ × ℝ))
    (ps : List (ℕ × ℕ)) (fg : List Bool) (k : ℕ) :
    (ps.foldl (demotion_step candidates) fg)[k]? = some true ↔
      fg[k]? = some true ∧ ∀ p ∈ ps, demotion_target candidates p ≠ some k := by
  induction ps generalizing fg with
  | nil => simp
  | cons p ps ih =>
    rw [List.foldl_cons, ih, demotion_step_getElem_true]
    simp only [List.forall_mem_cons]
    tauto

lemma foldl_demotion_length (candidates : List (ℝ × ℝ × ℝ × ℝ))
    (ps : List (ℕ × ℕ)) (fg : List Bool) :
    (ps.foldl (demotion_step candidates) fg).length = fg.length := by
  induction ps generalizing fg with
  | nil => rfl
  | cons p ps ih =>
    rw [List.foldl_cons, ih]
    unfold demotion_step
    rcases overlap_demotion (candidates.getD p.1 (0, 0, 0, 0))
        (candidates.getD p.2 (0, 0, 0, 0)) with _ | b
    · rfl
    · cases b <;> simp [List.length_set]

lemma classify_foreground_length (candidates : List (ℝ × ℝ × ℝ × ℝ)) :
    (classify_foreground candidates).length = candidates.length := by
  unfold classify_foreground
  rw [foldl_demotion_length, List.length_replicate]

lemma classify_foreground_false_iff (candidates : List (ℝ × ℝ × ℝ × ℝ)) (k : ℕ) :
    (classify_foreground candidates)[k]? = some false ↔
      ∃ i j, i < j ∧ j < candidates.length ∧
        demotion_target candidates (i, j) = some k := by
  have htrue := foldl_demotion_getElem_true candidates
    (index_pairs candidates.length) (List.replicate candidates.length true) k
  by_cases hk : k < candidates.length
  · have hget : ∃ b, (classify_foreground candidates)[k]? = some b := by
      have hk2 : k < (classify_foreground candidates).length := by
        rw [classify_foreground_length]
        exact hk
      exact ⟨(classify_foreground candidates).get ⟨k, hk2⟩,
        List.getElem?_eq_getElem hk2⟩
    obtain ⟨b, hb⟩ := hget
    rw [hb]
    have hrep : (List.replicate candidates.length true)[k]? = some true := by
      rw [List.getElem?_replicate, if_pos hk]
    constructor
    · intro hfalse
      have : ¬ (classify_foreground candidates)[k]? = some true := by
        rw [hb]
        cases b
        · simp
        · simp at hfalse
      rw [classify_foreground, htrue] at this
      push_neg at this
      obtain ⟨p, hp, hpt⟩ := this hrep
      obtain ⟨i, j⟩ := p
      rw [mem_index_pairs] at hp
      exact ⟨i, j, hp.1, hp.2, hpt⟩
    · intro ⟨i, j, hij, hjn, htgt⟩
      have hne : ¬ (classify_foreground candidates)[k]? = some true := by
        rw [classify_foreground, htrue]
        intro ⟨_, hall⟩
        exact hall (i, j) ((mem_index_pairs _ _ _).mpr ⟨hij, hjn⟩) htgt
      rw [hb] at hne
      cases b
      · rfl
      · exact absurd rfl hne
  · constructor
    · intro hfalse
      exfalso
      have : (classify_foreground candidates)[k]? = none :=
        List.getElem?_eq_none (by rw [classify_foreground_length]; omega)
      rw [this] at hfalse
      exact absurd hfalse (by simp)
    · intro ⟨i, j, hij, hjn, htgt⟩
      rcases demotion_target_mem candidates (i, j) k htgt with h | h <;> omega

lemma overlap_concentric (x y r1 r2 : ℝ) (h1 : 0 < r1) (h12 : r1 ≤ r2) :
    compute_circle_overlap (x, y, r1) (x, y, r2) = r1 ^ 2 / r2 ^ 2 := by
  have hr2 : 0 < r2 := lt_of_lt_of_le h1 h12
  have hd : center_distance (x, y, r1) (x, y, r2) = 0 := by
    unfold center_distance; simp
  unfold compute_circle_overlap
  dsimp only
  rw [hd]
  rw [if_neg (by push_neg; linarith : ¬ (0 : ℝ) ≥ r1 + r2)]
  rw [if_pos (abs_nonneg (r1 - r2))]
  rw [min_eq_left h12, max_eq_right h12]
  exact mul_div_mul_left (r1 ^ 2) (r2 ^ 2) Real.pi_ne_zero

lemma overlap_demotion_concentric_moderate (x y r1 r2 s1 s2 : ℝ)
    (h1 : 0 < r1) (h12 : r1 ≤ r2)
    (hlow : r1 ^ 2 / r2 ^ 2 > 0.15) (hhigh : ¬ r1 ^ 2 / r2 ^ 2 > 0.8) :
    overlap_demotion (x, y, r1, s1) (x, y, r2, s2) = some false := by
  unfold overlap_demotion
  dsimp only
  rw [overlap_concentric x y r1 r2 h1 h12]
  rw [if_pos hlow, if_neg hhigh, if_neg (by push_neg; linarith : ¬ r1 > r2)]

/-- C7 (amended): the pairwise step of `classify_overlapping_circles` triggers
no demotion for a pair with overlap ratio at most 0.15; above 0.8 it demotes
the pair member with the strictly lower initial score (the second member on
ties); between 0.15 and 0.8 it demotes the member with the strictly larger
radius (the second member on ties).  A candidate ends background exactly when
at least one processed pair demotes it — so both members of an overlapping pair
can end background when other circles also overlap them — and
`classify_overlapping_circles` returns each candidate with that final flag. -/
theorem classify_overlapping_circles_demotion_spec
    (candidates : List (ℝ × ℝ × ℝ × ℝ)) (k : ℕ) :
    (∀ ci cj : ℝ × ℝ × ℝ × ℝ,
      (¬ compute_circle_overlap (ci.1, ci.2.1, ci.2.2.1) (cj.1, cj.2.1, cj.2.2.1) > 0.15 →
          overlap_demotion ci cj = none)
      ∧ (compute_circle_overlap (ci.1, ci.2.1, ci.2.2.1) (cj.1, cj.2.1, cj.2.2.1) > 0.8 →
          ((ci.2.2.2 < cj.2.2.2 → overlap_demotion ci cj = some true)
            ∧ (¬ ci.2.2.2 < cj.2.2.2 → overlap_demotion ci cj = some false)))
      ∧ (compute_circle_overlap (ci.1, ci.2.1, ci.2.2.1) (cj.1, cj.2.1, cj.2.2.1) > 0.15 →
          ¬ compute_circle_overlap (ci.1, ci.2.1, ci.2.2.1) (cj.1, cj.2.1, cj.2.2.1) > 0.8 →
          ((ci.2.2.1 > cj.2.2.1 → overlap_demotion ci cj = some true)
            ∧ (¬ ci.2.2.1 > cj.2.2.1 → overlap_demotion ci cj = some false))))
    ∧ ((classify_foreground candidates)[k]? = some false ↔
        ∃ i j, i < j ∧ j < candidates.length ∧
          demotion_target candidates (i, j) = some k)
    ∧ (∀ (c : ℝ × ℝ × ℝ × ℝ) (b : Bool), candidates[k]? = some c →
        (classify_foreground candidates)[k]? = some b →
        (classify_overlapping_circles candidates)[k]? =
          some (c.1, c.2.1, c.2.2.1, c.2.2.2, b)) := by
  refine ⟨?_, classify_foreground_false_iff candidates k, ?_⟩
  · intro ci cj
    refine ⟨?_, ?_, ?_⟩
    · intro hno
      unfold overlap_demotion
      rw [if_neg hno]
    · intro h08
      have h015 : compute_circle_overlap (ci.1, ci.2.1, ci.2.2.1)
          (cj.1, cj.2.1, cj.2.2.1) > 0.15 := by norm_num at h08 ⊢; linarith
      constructor
      · intro hsc
        unfold overlap_demotion
        rw [if_pos h015, if_pos h08, if_pos hsc]
      · intro hsc
        unfold overlap_demotion
        rw [if_pos h015, if_pos h08, if_neg hsc]
    · intro h015 h08
      constructor
      · intro hr
        unfold overlap_demotion
        rw [if_pos h015, if_neg h08, if_pos hr]
      · intro hr
        unfold overlap_demotion
        rw [if_pos h015, if_neg h08, if_neg hr]
  · intro c b hc hb
    unfold classify_overlapping_circles
    rw [List.getElem?_map,
      (@List.getElem?_zip_eq_some _ _ candidates (classify_foreground candidates)
        (c, b) k).mpr ⟨hc, hb⟩]
    rfl

/-- Concrete candidate list refuting the claim's "exactly one of the pair"
reading: three concentric circles of radii 4, 6 and 9 with initial score 1. -/
noncomputable def cexCandidates : List (ℝ × ℝ × ℝ × ℝ) :=
  [(0, 0, 4, 1), (0, 0, 6, 1), (0, 0, 9, 1)]

/-- Counterexample for C7: in `cexCandidates` the circles at indices 1 and 2
overlap with ratio 4/9 > 0.15, yet `classify_overlapping_circles` demotes
BOTH of them to background (the pair (0,1) demotes 1 and the pair (0,2)
demotes 2), not exactly one of the pair. -/
theorem classify_overlapping_circles_cex :
    compute_circle_overlap ((0 : ℝ), (0 : ℝ), (6 : ℝ)) ((0 : ℝ), (0 : ℝ), (9 : ℝ)) > 0.15
    ∧ (classify_foreground cexCandidates)[1]? = some false
    ∧ (classify_foreground cexCandidates)[2]? = some false := by
  have hov12 : compute_circle_overlap ((0 : ℝ), (0 : ℝ), (6 : ℝ)) ((0 : ℝ), (0 : ℝ), (9 : ℝ))
      = 36 / 81 := by
    rw [overlap_concentric 0 0 6 9 (by norm_num) (by norm_num)]
    norm_num
  have htgt01 : demotion_target cexCandidates (0, 1) = some 1 := by
    unfold demotion_target
    have e1 : cexCandidates.getD 0 (0, 0, 0, 0) = ((0 : ℝ), 0, 4, 1) := rfl
    have e2 : cexCandidates.getD 1 (0, 0, 0, 0) = ((0 : ℝ), 0, 6, 1) := rfl
    rw [e1, e2, overlap_demotion_concentric_moderate 0 0 4 6 1 1 (by norm_num) (by norm_num)
      (by norm_num) (by norm_num)]
  have htgt02 : demotion_target cexCandidates (0, 2) = some 2 := by
    unfold demotion_target
    have e1 : cexCandidates.getD 0 (0, 0, 0, 0) = ((0 : ℝ), 0, 4, 1) := rfl
    have e2 : cexCandidates.getD 2 (0, 0, 0, 0) = ((0 : ℝ), 0, 9, 1) := rfl
    rw [e1, e2, overlap_demotion_concentric_moderate 0 0 4 9 1 1 (by norm_num) (by norm_num)
      (by norm_num) (by norm_num)]
  have hlen : cexCandidates.length = 3 := rfl
  refine ⟨by rw [hov12]; norm_num, ?_, ?_⟩
  · exact (classify_foreground_false_iff cexCandidates 1).mpr
      ⟨0, 1, by norm_num, by rw [hlen]; norm_num, htgt01⟩
  · exact (classify_foreground_false_iff cexCandidates 2).mpr
      ⟨0, 2, by norm_num, by rw [hlen]; norm_num, htgt02⟩

/-! ## Occlusion masks

Embeds `create_occlusion_mask(current_circle, all_circles, is_foreground,
mask_size)` from `src/vision/robust_champion_detector.py` (lines 214–257) as
the per-pixel predicate of the produced binary raster.  Circles here are the
integer `(x, y, r)` triples the Hough stage produces. -/

/-- Embeds the constant `HALO_SIZE = 3` (line 10). -/
def HALO_SIZE : ℤ := 3

/-- Filled-circle rasterization of `cv2.circle(mask, center, r, 255, -1)`:
pixel `(px, py)` is set exactly when its squared distance from the center is
at most `r²` (and the radius is nonnegative; `cv2.circle` rejects negative
radii). -/
def in_disk (cx cy r px py : ℤ) : Bool :=
  decide (0 ≤ r ∧ (px - cx) ^ 2 + (py - cy) ^ 2 ≤ r ^ 2)

/-- Embeds the overlap test `distance < r + other_r` of `create_occlusion_mask`
(lines 248–249), with the float `np.sqrt` comparison expressed exactly on
squares of integers. -/
def circles_touch (x y r ox oy ro : ℤ) : Bool :=
  decide (0 < r + ro ∧ (ox - x) ^ 2 + (oy - y) ^ 2 < (r + ro) ^ 2)

/-- Embeds `create_occlusion_mask` (lines 214–257): the mask starts as the
current circle drawn at the mask center (`mask_size[0]//2, mask_size[1]//2`);
for a background circle, every other circle of `all_circles` (the source skips
only the tuple equal to `current_circle`, line 240) that overlaps the current
one is subtracted at its relative position, expanded by `HALO_SIZE + 2`.
A foreground circle keeps its full disk. -/
def create_occlusion_mask (current : ℤ × ℤ × ℤ) (all_circles : List (ℤ × ℤ × ℤ))
    (is_foreground : Bool) (mask_size : ℤ × ℤ) (p : ℤ × ℤ) : Bool :=
  let cx := mask_size.1 / 2
  let cy := mask_size.2 / 2
  let base := in_disk cx cy current.2.2 p.1 p.2
  if is_foreground then base
  else
    all_circles.foldl
      (fun m o =>
        if o = current then m
        else if circles_touch current.1 current.2.1 current.2.2 o.1 o.2.1 o.2.2 then
          m && !(in_disk (o.1 - current.1 + cx) (o.2.1 - current.2.1 + cy)
            (o.2.2 + HALO_SIZE + 2) p.1 p.2)
        else m)
      base

/-- Mask following the specification's words for C3 (to be compared with
`create_occlusion_mask`): the intersection of "inside my circle" and "outside
every overlapping foreground circle (expanded by the halo)"; circles
classified as background are never subtracted. -/
def spec_occlusion_mask (current : ℤ × ℤ × ℤ)
    (classified : List ((ℤ × ℤ × ℤ) × Bool)) (is_foreground : Bool)
    (mask_size : ℤ × ℤ) (p : ℤ × ℤ) : Bool :=
  let cx := mask_size.1 / 2
  let cy := mask_size.2 / 2
  let base := in_disk cx cy current.2.2 p.1 p.2
  if is_foreground then base
  else
    base && classified.all fun ob =>
      if ob.2 = true ∧ ob.1 ≠ current ∧
          circles_touch current.1 current.2.1 current.2.2 ob.1.1 ob.1.2.1 ob.1.2.2 = true
      then !(in_disk (ob.1.1 - current.1 + cx) (ob.1.2.1 - current.2.1 + cy)
        (ob.1.2.2 + HALO_SIZE + 2) p.1 p.2)
      else true

lemma foldl_and_filtered {α : Type} (g : α → Bool) (cond : α → Prop)
    [DecidablePred cond] :
    ∀ (l : List α) (b : Bool),
      (l.foldl (fun m o => if cond o then m && g o else m) b) =
        (b && l.all fun o => if cond o then g o else true) := by
  intro l
  induction l with
  | nil => intro b; simp
  | cons a l ih =>
    intro b
    rw [List.foldl_cons, List.all_cons, ih]
    by_cases h : cond a
    · simp [h, Bool.and_assoc]
    · simp [h]

/-- C3 (amended): a foreground candidate's occlusion mask is its full circle;
a background candidate's mask contains exactly the pixels inside its own
circle and outside the halo-expanded disk of EVERY other overlapping circle in
`all_circles` — foreground or background alike, since the source subtracts all
of them, not only the foreground ones. -/
theorem create_occlusion_mask_spec (current : ℤ × ℤ × ℤ)
    (all_circles : List (ℤ × ℤ × ℤ)) (mask_size : ℤ × ℤ) (p : ℤ × ℤ) :
    (create_occlusion_mask current all_circles true mask_size p =
      in_disk (mask_size.1 / 2) (mask_size.2 / 2) current.2.2 p.1 p.2)
    ∧ (create_occlusion_mask current all_circles false mask_size p = true ↔
        in_disk (mask_size.1 / 2) (mask_size.2 / 2) current.2.2 p.1 p.2 = true
        ∧ ∀ o ∈ all_circles, o ≠ current →
            circles_touch current.1 current.2.1 current.2.2 o.1 o.2.1 o.2.2 = true →
            in_disk (o.1 - current.1 + mask_size.1 / 2)
              (o.2.1 - current.2.1 + mask_size.2 / 2)
              (o.2.2 + HALO_SIZE + 2) p.1 p.2 = false) := by
  constructor
  · rfl
  · unfold create_occlusion_mask
    simp only [if_neg (Bool.false_ne_true)]
    have hstep : ∀ (m : Bool) (o : ℤ × ℤ × ℤ),
        (if o = current then m
         else if circles_touch current.1 current.2.1 current.2.2 o.1 o.2.1 o.2.2 then
           m && !(in_disk (o.1 - current.1 + mask_size.1 / 2)
             (o.2.1 - current.2.1 + mask_size.2 / 2)
             (o.2.2 + HALO_SIZE + 2) p.1 p.2)
         else m) =
        (if (¬ o = current ∧
              circles_touch current.1 current.2.1 current.2.2 o.1 o.2.1 o.2.2 = true) then
           m && !(in_disk (o.1 - current.1 + mask_size.1 / 2)
             (o.2.1 - current.2.1 + mask_size.2 / 2)
             (o.2.2 + HALO_SIZE + 2) p.1 p.2)
         else m) := by
      intro m o
      by_cases h1 : o = current
      · simp [h1]
      · by_cases h2 : circles_touch current.1 current.2.1 current.2.2 o.1 o.2.1 o.2.2
        · simp [h1, h2]
        · simp [h1, h2]
    rw [funext fun m => funext (hstep m)]
    have := foldl_and_filtered
      (fun o => !(in_disk (o.1 - current.1 + mask_size.1 / 2)
        (o.2.1 - current.2.1 + mask_size.2 / 2)
        (o.2.2 + HALO_SIZE + 2) p.1 p.2))
      (fun o : ℤ × ℤ × ℤ => ¬ o = current ∧
        circles_touch current.1 current.2.1 current.2.2 o.1 o.2.1 o.2.2 = true)
      all_circles
      (in_disk (mask_size.1 / 2) (mask_size.2 / 2) current.2.2 p.1 p.2)
    rw [this]
    rw [Bool.and_eq_true, List.all_eq_true]
    constructor
    · intro ⟨hbase, hall⟩
      refine ⟨hbase, ?_⟩
      intro o ho hne htouch
      have := hall o ho
      rw [if_pos ⟨hne, htouch⟩] at this
      simpa using this
    · intro ⟨hbase, hall⟩
      refine ⟨hbase, ?_⟩
      intro o ho
      by_cases h : (¬ o = current ∧
          circles_touch current.1 current.2.1 current.2.2 o.1 o.2.1 o.2.2 = true)
      · rw [if_pos h]
        simpa using hall o ho h.1 h.2
      · rw [if_neg h]

/-- Candidate list (with scores) for the C3 counterexample over `ℝ`: three
concentric circles of radii 20, 30 and 40; classification leaves the smallest
foreground and demotes the other two to background. -/
noncomputable def cexMaskCandidates : List (ℝ × ℝ × ℝ × ℝ) :=
  [(0, 0, 20, 1), (0, 0, 30, 1), (0, 0, 40, 1)]

/-- Counterexample for C3: with `cexMaskCandidates` classified as
foreground/background/background, the occlusion mask built for the background
circle `(0,0,30)` excludes the pixel `(78,50)` of a `100×100` mask — that
pixel lies inside the halo-expanded disk of the OTHER BACKGROUND circle
`(0,0,40)` — although the pixel is inside the candidate's own circle and
outside the only overlapping foreground circle `(0,0,20)`, so the mask the
claim describes (`spec_occlusion_mask`) contains it. -/
theorem create_occlusion_mask_cex :
    ((classify_foreground cexMaskCandidates)[0]? = some true
      ∧ (classify_foreground cexMaskCandidates)[1]? = some false
      ∧ (classify_foreground cexMaskCandidates)[2]? = some false)
    ∧ create_occlusion_mask (0, 0, 30) [(0, 0, 20), (0, 0, 30), (0, 0, 40)]
        false (100, 100) (78, 50) = false
    ∧ spec_occlusion_mask (0, 0, 30)
        [((0, 0, 20), true), ((0, 0, 30), false), ((0, 0, 40), false)]
        false (100, 100) (78, 50) = true := by
  have t01 : demotion_target cexMaskCandidates (0, 1) = some 1 := by
    unfold demotion_target
    have e1 : cexMaskCandidates.getD 0 (0, 0, 0, 0) = ((0 : ℝ), 0, 20, 1) := rfl
    have e2 : cexMaskCandidates.getD 1 (0, 0, 0, 0) = ((0 : ℝ), 0, 30, 1) := rfl
    rw [e1, e2, overlap_demotion_concentric_moderate 0 0 20 30 1 1 (by norm_num)
      (by norm_num) (by norm_num) (by norm_num)]
  have t02 : demotion_target cexMaskCandidates (0, 2) = some 2 := by
    unfold demotion_target
    have e1 : cexMaskCandidates.getD 0 (0, 0, 0, 0) = ((0 : ℝ), 0, 20, 1) := rfl
    have e2 : cexMaskCandidates.getD 2 (0, 0, 0, 0) = ((0 : ℝ), 0, 40, 1) := rfl
    rw [e1, e2, overlap_demotion_concentric_moderate 0 0 20 40 1 1 (by norm_num)
      (by norm_num) (by norm_num) (by norm_num)]
  have t12 : demotion_target cexMaskCandidates (1, 2) = some 2 := by
    unfold demotion_target
    have e1 : cexMaskCandidates.getD 1 (0, 0, 0, 0) = ((0 : ℝ), 0, 30, 1) := rfl
    have e2 : cexMaskCandidates.getD 2 (0, 0, 0, 0) = ((0 : ℝ), 0, 40, 1) := rfl
    rw [e1, e2, overlap_demotion_concentric_moderate 0 0 30 40 1 1 (by norm_num)
      (by norm_num) (by norm_num) (by norm_num)]
  have hlen : cexMaskCandidates.length = 3 := rfl
  refine ⟨⟨?_, ?_, ?_⟩, by decide, by decide⟩
  · rw [classify_foreground, foldl_demotion_getElem_true]
    constructor
    · rw [hlen]; decide
    · intro q hq
      obtain ⟨i, j⟩ := q
      rw [mem_index_pairs, hlen] at hq
      obtain ⟨hij, hj3⟩ := hq
      interval_cases j
      · omega
      · interval_cases i
        · rw [t01]; simp
      · interval_cases i
        · rw [t02]; simp
        · rw [t12]; simp
  · exact (classify_foreground_false_iff cexMaskCandidates 1).mpr
      ⟨0, 1, by norm_num, by rw [hlen]; norm_num, t01⟩
  · exact (classify_foreground_false_iff cexMaskCandidates 2).mpr
      ⟨0, 2, by norm_num, by rw [hlen]; norm_num, t02⟩

/-! ## NaN sanitization in the scoring pipeline

Embeds the similarity sanitization of `process_champion`
(`src/vision/robust_champion_detector.py`).  A float that may be NaN is
embedded as `Option ℚ` with `none` for NaN (every non-NaN Python float is a
rational); `x if not isnan else 0.0` is `nan_to_zero`. -/

/-- Embeds `v = 0.0 if np.isnan(v) else v` (lines 646–647 and 683–685). -/
def nan_to_zero (x : Option ℚ) : ℚ := x.getD 0

/-- Embeds one HSV channel of lines 678–690: `cv2.compareHist(...,
HISTCMP_BHATTACHARYYA)` yields the distance `d` (NaN for the degenerate
all-zero histogram of an empty mask); the source replaces a NaN by `0.0`
FIRST (lines 683–685) and only then converts the distance to the similarity
`1.0 - d` (lines 688–690). -/
def bhattacharyya_channel_similarity (d : Option ℚ) : ℚ := 1 - nan_to_zero d

/-- Embeds lines 644–647: `hog_similarity = 1.0 - cosine(...)` — NaN whenever
the cosine distance is NaN (zero-norm descriptor) — and then the NaN check
replaces it by `0.0`. -/
def hog_similarity_sanitized (cosine_distance : Option ℚ) : ℚ :=
  nan_to_zero (cosine_distance.map fun v => 1 - v)

/-- C4, the code evaluated at the failing input: a NaN Bhattacharyya distance
makes the per-channel similarity `1` — the BEST case — because the NaN is
zeroed before the `1 - d` inversion; only the HOG path yields the claimed
worst-case `0` on NaN. -/
theorem nan_bhattacharyya_gives_best_case :
    bhattacharyya_channel_similarity none = 1 ∧ hog_similarity_sanitized none = 0 := by
  constructor <;>
    simp [bhattacharyya_channel_similarity, hog_similarity_sanitized, nan_to_zero]

/-! ## The per-champion scoring loop and the result maps

Embeds `process_champion` and `detect_champion_positions` from
`src/vision/robust_champion_detector.py` (lines 260–951).  External
computations stay parameters of the environment:

* `icon` — the outcome of loading `vision/icons/<champ>.png` (lines 390–425:
  missing file, unreadable file, icon smaller than the template size, resize
  failure, or success);
* `score` — the combined HOG/color similarity of candidate index `i` for a
  champion (the cv2/scikit-image feature pipeline of lines 566–701);
* `within`/`polyDist`/`regions` — the shapely data behind the location
  descriptor, as in the description section.

The geometric skip test on each candidate (lines 553–561) and the selection
of the best-scoring candidate against the threshold (lines 531–728) are code
of the repository and are embedded exactly. -/

/-- Outcome of the icon-asset loading and validation steps of
`process_champion` (lines 390–425). -/
inductive IconLoad where
  | missing
  | unreadable
  | tooSmall
  | resizeError
  | ok
deriving DecidableEq

/-- Classified candidate as `process_champion` receives it:
`(x_center, y_center, radius, score, is_foreground)`. -/
abbrev CCand : Type := ℤ × ℤ × ℤ × ℚ × Bool

/-- Environment of one `detect_champion_positions` call. -/
structure DetectEnv (Poly : Type) where
  minimapH : ℤ
  minimapW : ℤ
  iconSize : ℤ
  icon : String → IconLoad
  score : String → ℕ → ℚ
  within : ℚ → ℚ → Poly → Bool
  polyDist : ℚ → ℚ → Poly → ℚ
  regions : List (Region Poly)

/-- Embeds the out-of-bounds skip of the candidate loop (lines 541 and
553–561): `pad = max(4, icon_size[0] // 6)`, the region under the candidate
must lie inside the minimap (`shape[1]` columns, `shape[0]` rows). -/
def candidate_in_bounds (minimapW minimapH iconSize : ℤ) (c : CCand) : Bool :=
  let padv := max 4 (iconSize / 6)
  let half_w := iconSize / 2 + padv / 2
  let half_h := iconSize / 2 + padv / 2
  let x := c.1 - half_w
  let y := c.2.1 - half_h
  let w := iconSize + padv
  let h := iconSize + padv
  !(decide (x < 0) || decide (y < 0) ||
    decide (x + w ≥ minimapW) || decide (y + h ≥ minimapH))

/-- Embeds the best-candidate selection of `process_champion` (lines 531–536
and 719–728) as a fold: the running state is `(best_match, best_similarity)`,
started at `(None, threshold)`; an in-bounds candidate whose combined score
exceeds the running best becomes the new best. -/
def best_match_fold (score : ℕ → ℚ) (inB : CCand → Bool)
    (l : List (ℕ × CCand)) (st : Option (ℤ × ℤ) × ℚ) : Option (ℤ × ℤ) × ℚ :=
  l.foldl
    (fun st ic =>
      if inB ic.2 then
        if st.2 < score ic.1 then (some (ic.2.1, ic.2.2.1), score ic.1) else st
      else st)
    st

/-- The whole candidate loop of `process_champion` for one champion. -/
def best_match (score : ℕ → ℚ) (inB : CCand → Bool)
    (cands : List CCand) (threshold : ℚ) : Option (ℤ × ℤ) × ℚ :=
  best_match_fold score inB cands.enum (none, threshold)

/-- Embeds `MinimapCoordinateMapper.describe_location(x, y, minimap_size)`
(minimap_coordinate_mapper.py lines 98–111): normalize the point, then apply
the descriptor (`get_location_description` with its default `n_closest = 3`). -/
def describe_location {Poly : Type} (within : ℚ → ℚ → Poly → Bool)
    (polyDist : ℚ → ℚ → Poly → ℚ) (regions : List (Region Poly))
    (x y : ℚ) (minimap_size : ℚ × ℚ) : String :=
  get_location_description within polyDist
    (normalize_coordinates x y minimap_size).1
    (normalize_coordinates x y minimap_size).2 regions 3

/-- Embeds `process_champion(champ, ...)` (lines 378–892): a missing,
unreadable, undersized or unresizable icon gives `("Not visible", no
coordinates)`; otherwise the loop selects the best candidate above the
threshold, and a found match is reported through
`mapper.describe_location` / `mapper.normalize_coordinates`, both called with
`minimap.shape[:2]` — i.e. `(rows, columns)` — as the size argument, exactly
as the source does (lines 877–892). -/
def process_champion {Poly : Type} (env : DetectEnv Poly) (champ : String)
    (classified : List CCand) (threshold : ℚ) : String × Option (ℚ × ℚ) :=
  match env.icon champ with
  | IconLoad.ok =>
    match best_match (env.score champ)
        (candidate_in_bounds env.minimapW env.minimapH env.iconSize)
        classified threshold with
    | (some xy, _) =>
      (describe_location env.within env.polyDist env.regions
          (xy.1 : ℚ) (xy.2 : ℚ) ((env.minimapH : ℚ), (env.minimapW : ℚ)),
        some (normalize_coordinates (xy.1 : ℚ) (xy.2 : ℚ)
          ((env.minimapH : ℚ), (env.minimapW : ℚ))))
    | (none, _) => ("Not visible", none)
  | _ => ("Not visible", none)

/-- Python dictionary assignment `d[k] = v`, on dictionaries embedded as
insertion-ordered association lists: replace the value in place when the key
exists, append otherwise. -/
def dict_insert {β : Type} (k : String) (v : β) (d : List (String × β)) :
    List (String × β) :=
  if d.any (fun e => e.1 = k) then
    d.map fun e => if e.1 = k then (k, v) else e
  else d ++ [(k, v)]

/-- One iteration of the champion loops of `detect_champion_positions`
(lines 894–899): run `process_champion` and record its results in
`positions_str` (always) and `positions_xy` (only on a match). -/
def detect_step {Poly : Type} (env : DetectEnv Poly) (threshold : ℚ)
    (cands : List CCand)
    (st : List (String × String) × List (String × (ℚ × ℚ))) (champ : String) :
    List (String × String) × List (String × (ℚ × ℚ)) :=
  let r := process_champion env champ cands threshold
  (dict_insert champ r.1 st.1,
    match r.2 with
    | some pos => dict_insert champ pos st.2
    | none => st.2)

/-- Embeds `detect_champion_positions` (lines 260–951) downstream of the color
filtering, Hough transform and classification: fold the ally roster over the
blue classified candidates, then the enemy roster over the red ones, building
the `positions_str` and `positions_xy` dictionaries. -/
def detect_champion_positions {Poly : Type} (env : DetectEnv Poly)
    (blue_classified red_classified : List CCand)
    (ally_champions enemy_champions : List String) (threshold : ℚ) :
    List (String × String) × List (String × (ℚ × ℚ)) :=
  enemy_champions.foldl (detect_step env threshold red_classified)
    (ally_champions.foldl (detect_step env threshold blue_classified) ([], []))

lemma best_match_fold_cons (score : ℕ → ℚ) (inB : CCand → Bool)
    (a : ℕ × CCand) (l : List (ℕ × CCand)) (st : Option (ℤ × ℤ) × ℚ) :
    best_match_fold score inB (a :: l) st =
      best_match_fold score inB l
        (if inB a.2 then
          (if st.2 < score a.1 then (some (a.2.1, a.2.2.1), score a.1) else st)
        else st) := rfl

lemma best_match_fold_invariant (score : ℕ → ℚ) (inB : CCand → Bool) (t : ℚ) :
    ∀ (l : List (ℕ × CCand)) (P0 : ℕ × CCand → Prop) (st : Option (ℤ × ℤ) × ℚ),
      t ≤ st.2 →
      (st.1 = none → st.2 = t) →
      (∀ xy, st.1 = some xy → t < st.2 ∧ ∃ ic, P0 ic ∧ inB ic.2 = true ∧
          score ic.1 = st.2 ∧ xy = (ic.2.1, ic.2.2.1)) →
      t ≤ (best_match_fold score inB l st).2
      ∧ ((best_match_fold score inB l st).1 = none →
          (best_match_fold score inB l st).2 = t)
      ∧ (∀ xy, (best_match_fold score inB l st).1 = some xy →
          t < (best_match_fold score inB l st).2
          ∧ ∃ ic, (P0 ic ∨ ic ∈ l) ∧ inB ic.2 = true ∧
              score ic.1 = (best_match_fold score inB l st).2 ∧
              xy = (ic.2.1, ic.2.2.1)) := by
  intro l
  induction l with
  | nil =>
    intro P0 st h1 h2 h3
    refine ⟨h1, h2, ?_⟩
    intro xy hxy
    obtain ⟨hlt, ic, hic, hib, hsc, hxy'⟩ := h3 xy hxy
    exact ⟨hlt, ic, Or.inl hic, hib, hsc, hxy'⟩
  | cons a l ih =>
    intro P0 st h1 h2 h3
    rw [best_match_fold_cons]
    by_cases hb : inB a.2 = true
    · rw [if_pos hb]
      by_cases hs : st.2 < score a.1
      · rw [if_pos hs]
        have hres := ih (fun ic => P0 ic ∨ ic = a) (some (a.2.1, a.2.2.1), score a.1)
          (le_of_lt (lt_of_le_of_lt h1 hs))
          (by intro h; simp at h)
          (by
            intro xy hxy
            refine ⟨lt_of_le_of_lt h1 hs, a, Or.inr rfl, hb, rfl, ?_⟩
            simpa using hxy.symm)
        refine ⟨hres.1, hres.2.1, ?_⟩
        intro xy hxy
        obtain ⟨hlt, ic, hic, hib, hsc, hxy'⟩ := hres.2.2 xy hxy
        refine ⟨hlt, ic, ?_, hib, hsc, hxy'⟩
        rcases hic with (hic | rfl) | hic
        · exact Or.inl hic
        · exact Or.inr (List.mem_cons_self _ _)
        · exact Or.inr (List.mem_cons_of_mem _ hic)
      · rw [if_neg hs]
        have hres := ih P0 st h1 h2 h3
        refine ⟨hres.1, hres.2.1, ?_⟩
        intro xy hxy
        obtain ⟨hlt, ic, hic, hib, hsc, hxy'⟩ := hres.2.2 xy hxy
        refine ⟨hlt, ic, ?_, hib, hsc, hxy'⟩
        rcases hic with hic | hic
        · exact Or.inl hic
        · exact Or.inr (List.mem_cons_of_mem _ hic)
    · rw [if_neg hb]
      have hres := ih P0 st h1 h2 h3
      refine ⟨hres.1, hres.2.1, ?_⟩
      intro xy hxy
      obtain ⟨hlt, ic, hic, hib, hsc, hxy'⟩ := hres.2.2 xy hxy
      refine ⟨hlt, ic, ?_, hib, hsc, hxy'⟩
      rcases hic with hic | hic
      · exact Or.inl hic
      · exact Or.inr (List.mem_cons_of_mem _ hic)

lemma best_match_spec (score : ℕ → ℚ) (inB : CCand → Bool)
    (cands : List CCand) (t : ℚ) :
    t ≤ (best_match score inB cands t).2
    ∧ ((best_match score inB cands t).1 = none → (best_match score inB cands t).2 = t)
    ∧ (∀ xy, (best_match score inB cands t).1 = some xy →
        t < (best_match score inB cands t).2
        ∧ ∃ ic, ic ∈ cands.enum ∧ inB ic.2 = true ∧
            score ic.1 = (best_match score inB cands t).2 ∧
            xy = (ic.2.1, ic.2.2.1)) := by
  have hres := best_match_fold_invariant score inB t cands.enum (fun _ => False)
    (none, t) (le_refl t) (fun _ => rfl) (by intro xy h; simp at h)
  refine ⟨hres.1, hres.2.1, ?_⟩
  intro xy hxy
  obtain ⟨hlt, ic, hic, hib, hsc, hxy'⟩ := hres.2.2 xy hxy
  rcases hic with hic | hic
  · exact absurd hic not_false
  · exact ⟨hlt, ic, hic, hib, hsc, hxy'⟩

/-- C2: `process_champion` either reports the champion "Not visible", or its
accepted candidate is an in-bounds classified candidate whose combined
similarity score strictly exceeds the acceptance threshold (so in particular
is `≥` it); a candidate whose score does not exceed the threshold is never the
accepted match. -/
theorem process_champion_confidence {Poly : Type} (env : DetectEnv Poly)
    (champ : String) (classified : List CCand) (t : ℚ) :
    (process_champion env champ classified t).1 = "Not visible"
    ∨ ∃ x y s,
        best_match (env.score champ)
          (candidate_in_bounds env.minimapW env.minimapH env.iconSize)
          classified t = (some (x, y), s)
        ∧ t < s ∧ t ≤ s
        ∧ (process_champion env champ classified t).2 =
            some (normalize_coordinates (x : ℚ) (y : ℚ)
              ((env.minimapH : ℚ), (env.minimapW : ℚ)))
        ∧ ∃ i c, (i, c) ∈ classified.enum
            ∧ candidate_in_bounds env.minimapW env.minimapH env.iconSize c = true
            ∧ env.score champ i = s ∧ (x, y) = (c.1, c.2.1) := by
  unfold process_champion
  rcases hic : env.icon champ with _ | _ | _ | _ | _
  · exact Or.inl rfl
  · exact Or.inl rfl
  · exact Or.inl rfl
  · exact Or.inl rfl
  · rcases hbm : best_match (env.score champ)
        (candidate_in_bounds env.minimapW env.minimapH env.iconSize)
        classified t with ⟨bm, bs⟩
    rcases bm with _ | xy
    · exact Or.inl rfl
    · right
      have hspec := best_match_spec (env.score champ)
        (candidate_in_bounds env.minimapW env.minimapH env.iconSize) classified t
      have hxy : (best_match (env.score champ)
          (candidate_in_bounds env.minimapW env.minimapH env.iconSize)
          classified t).1 = some xy := by rw [hbm]
      obtain ⟨hlt, ic, hmem, hib, hsc, hxyeq⟩ := hspec.2.2 xy hxy
      rw [hbm] at hlt hsc
      exact ⟨xy.1, xy.2, bs, by simp, hlt, le_of_lt hlt, rfl, ic.1, ic.2, hmem, hib, hsc,
        by simp [hxyeq]⟩

lemma inside_ne_not_visible (s : String) : ("inside " ++ s) ≠ "Not visible" := by
  intro h
  have hd := congrArg String.data h
  rw [String.data_append] at hd
  simp at hd

lemma near_ne_not_visible (s : String) : ("near " ++ s) ≠ "Not visible" := by
  intro h
  have hd := congrArg String.data h
  rw [String.data_append] at hd
  simp at hd

lemma between_ne_not_visible (s : String) : ("between " ++ s) ≠ "Not visible" := by
  intro h
  have hd := congrArg String.data h
  rw [String.data_append] at hd
  simp at hd

lemma get_location_description_ne_not_visible {Poly : Type}
    (within : ℚ → ℚ → Poly → Bool) (polyDist : ℚ → ℚ → Poly → ℚ)
    (x y : ℚ) (regions : List (Region Poly)) (n : ℕ) :
    get_location_description within polyDist x y regions n ≠ "Not visible" := by
  unfold get_location_description
  by_cases hc : ((regions.filter fun r => within x y r.poly).map Region.label) ≠ []
  · rw [if_pos hc]
    by_cases hl : ((regions.filter fun r => within x y r.poly).map Region.label).length = 1
    · rw [if_pos hl]
      exact inside_ne_not_visible _
    · rw [if_neg hl]
      have hassoc :
          "inside " ++ String.intercalate ", "
              ((regions.filter fun r => within x y r.poly).map Region.label).dropLast
            ++ " and " ++
            ((((regions.filter fun r => within x y r.poly).map Region.label).getLast?).getD "")
          = "inside " ++ (String.intercalate ", "
              ((regions.filter fun r => within x y r.poly).map Region.label).dropLast
            ++ " and " ++
            ((((regions.filter fun r => within x y r.poly).map Region.label).getLast?).getD "")) := by
        simp [String.append_assoc]
      rw [hassoc]
      exact inside_ne_not_visible _
  · rw [if_neg hc]
    by_cases hl : (find_closest_regions polyDist x y regions n).length = 1
    · rw [if_pos hl]
      exact near_ne_not_visible _
    · rw [if_neg hl]
      have hassoc :
          "between " ++ String.intercalate ", "
              (find_closest_regions polyDist x y regions n).dropLast
            ++ " and " ++
            (((find_closest_regions polyDist x y regions n).getLast?).getD "")
          = "between " ++ (String.intercalate ", "
              (find_closest_regions polyDist x y regions n).dropLast
            ++ " and " ++
            (((find_closest_regions polyDist x y regions n).getLast?).getD "")) := by
        simp [String.append_assoc]
      rw [hassoc]
      exact between_ne_not_visible _

lemma describe_location_ne_not_visible {Poly : Type}
    (within : ℚ → ℚ → Poly → Bool) (polyDist : ℚ → ℚ → Poly → ℚ)
    (regions : List (Region Poly)) (x y : ℚ) (minimap_size : ℚ × ℚ) :
    describe_location within polyDist regions x y minimap_size ≠ "Not visible" :=
  get_location_description_ne_not_visible within polyDist _ _ regions 3

lemma lookup_update_map {β : Type} (k : String) (v : β) (c : String) :
    ∀ es : List (String × β),
      (es.map fun e => if e.1 = k then (k, v) else e).lookup c =
        if c = k then (es.lookup k).map (fun _ => v) else es.lookup c := by
  intro es
  induction es with
  | nil => simp [List.lookup]
  | cons e es ih =>
    obtain ⟨e1, e2⟩ := e
    rw [List.map_cons]
    by_cases he : e1 = k
    · have hhead : (if (e1, e2).1 = k then (k, v) else (e1, e2)) = (k, v) := by
        simp [he]
      rw [hhead]
      by_cases hck : c = k
      · have h1 : (c == k) = true := beq_iff_eq.mpr hck
        have h2 : (k == e1) = true := beq_iff_eq.mpr he.symm
        simp [List.lookup_cons, h1, h2, hck]
      · have h1 : (c == k) = false := beq_eq_false_iff_ne.mpr hck
        have h2 : (c == e1) = false := beq_eq_false_iff_ne.mpr (fun hh => hck (hh.trans he))
        simp [List.lookup_cons, h1, h2, hck, ih]
    · have hhead : (if (e1, e2).1 = k then (k, v) else (e1, e2)) = (e1, e2) := by
        simp [he]
      rw [hhead]
      by_cases hce : c = e1
      · have h1 : (c == e1) = true := beq_iff_eq.mpr hce
        have hck : ¬ c = k := fun hh => he (hce.symm.trans hh)
        simp [List.lookup_cons, h1, hck]
      · have h1 : (c == e1) = false := beq_eq_false_iff_ne.mpr hce
        by_cases hck : c = k
        · have h2 : (k == e1) = false := beq_eq_false_iff_ne.mpr (fun hh => he hh.symm)
          subst hck
          simp [List.lookup_cons, h1, h2, ih]
        · simp [List.lookup_cons, h1, hck, ih]

lemma any_key_iff {β : Type} (k : String) :
    ∀ d : List (String × β),
      (d.any fun e => e.1 = k) = true ↔ ∃ w, d.lookup k = some w := by
  intro d
  induction d with
  | nil => simp [List.lookup]
  | cons e es ih =>
    obtain ⟨e1, e2⟩ := e
    by_cases he : e1 = k
    · subst he
      simp [List.lookup]
    · simp [List.lookup, he, beq_eq_false_iff_ne.mpr (fun hh => he hh.symm), ih]

lemma lookup_append_right {β : Type} (k : String) (v : β) (c : String) :
    ∀ d : List (String × β),
      (d ++ [(k, v)]).lookup c =
        match d.lookup c with
        | some w => some w
        | none => if c = k then some v else none := by
  intro d
  induction d with
  | nil =>
    by_cases hck : c = k
    · subst hck; simp [List.lookup]
    · simp [List.lookup, beq_eq_false_iff_ne.mpr hck, hck]
  | cons e es ih =>
    obtain ⟨e1, e2⟩ := e
    by_cases hce : c = e1
    · subst hce
      simp [List.lookup]
    · simp [List.lookup, beq_eq_false_iff_ne.mpr hce, ih]

/-- Lookup after a Python-style dictionary assignment: the assigned key maps
to the new value, every other key is untouched. -/
lemma dict_insert_lookup {β : Type} (k : String) (v : β) (d : List (String × β))
    (c : String) :
    (dict_insert k v d).lookup c = if c = k then some v else d.lookup c := by
  unfold dict_insert
  by_cases hany : (d.any fun e => e.1 = k) = true
  · rw [if_pos hany, lookup_update_map]
    by_cases hck : c = k
    · obtain ⟨w, hw⟩ := (any_key_iff k d).mp hany
      simp [hck, hw]
    · simp [hck]
  · rw [if_neg hany, lookup_append_right]
    by_cases hck : c = k
    · subst hck
      rcases hl : d.lookup c with _ | w
      · simp
      · exact absurd ((any_key_iff c d).mpr ⟨w, hl⟩) hany
    · rcases hl : d.lookup c with _ | w <;> simp [hck]

lemma process_champion_bad_asset {Poly : Type} (env : DetectEnv Poly)
    (champ : String) (cands : List CCand) (t : ℚ)
    (h : env.icon champ ≠ IconLoad.ok) :
    process_champion env champ cands t = ("Not visible", none) := by
  unfold process_champion
  cases hic : env.icon champ
  case ok => exact absurd hic h
  all_goals rfl

lemma process_champion_visible_iff {Poly : Type} (env : DetectEnv Poly)
    (champ : String) (cands : List CCand) (t : ℚ) :
    (process_champion env champ cands t).2 = none ↔
      (process_champion env champ cands t).1 = "Not visible" := by
  unfold process_champion
  cases hic : env.icon champ
  case ok =>
    rcases hbm : best_match (env.score champ)
        (candidate_in_bounds env.minimapW env.minimapH env.iconSize) cands t
      with ⟨bm, bs⟩
    rcases bm with _ | xy
    · simp
    · simp only
      constructor
      · intro h
        exact absurd h (by simp)
      · intro h
        exact absurd h (describe_location_ne_not_visible env.within env.polyDist
          env.regions (xy.1 : ℚ) (xy.2 : ℚ) ((env.minimapH : ℚ), (env.minimapW : ℚ)))
  all_goals simp

lemma detect_fold_str_lookup {Poly : Type} (env : DetectEnv Poly) (t : ℚ)
    (cands : List CCand) :
    ∀ (l : List String) (st : List (String × String) × List (String × (ℚ × ℚ)))
      (c : String),
      ((l.foldl (detect_step env t cands) st).1).lookup c =
        if c ∈ l then some (process_champion env c cands t).1
        else st.1.lookup c := by
  intro l
  induction l with
  | nil => intro st c; simp
  | cons a l ih =>
    intro st c
    rw [List.foldl_cons, ih]
    by_cases hcl : c ∈ l
    · simp [hcl]
    · by_cases hca : c = a
      · subst hca
        simp [hcl, detect_step, dict_insert_lookup]
      · simp [hcl, hca, detect_step, dict_insert_lookup]

lemma detect_fold_xy_lookup {Poly : Type} (env : DetectEnv Poly) (t : ℚ)
    (cands : List CCand) :
    ∀ (l : List String) (st : List (String × String) × List (String × (ℚ × ℚ)))
      (c : String),
      ((l.foldl (detect_step env t cands) st).2).lookup c =
        if c ∈ l then
          (match (process_champion env c cands t).2 with
            | some p => some p
            | none => st.2.lookup c)
        else st.2.lookup c := by
  intro l
  induction l with
  | nil => intro st c; simp
  | cons a l ih =>
    intro st c
    rw [List.foldl_cons, ih]
    by_cases hcl : c ∈ l
    · rw [if_pos hcl, if_pos (List.mem_cons_of_mem a hcl)]
      rcases hxy : (process_champion env c cands t).2 with _ | p
      · simp only
        by_cases hca : c = a
        · subst hca
          simp [detect_step, hxy]
        · rcases hxya : (process_champion env a cands t).2 with _ | q
          · simp [detect_step, hxya]
          · simp [detect_step, hxya, dict_insert_lookup, hca]
      · simp
    · rw [if_neg hcl]
      by_cases hca : c = a
      · subst hca
        rw [if_pos (List.mem_cons_self c l)]
        rcases hxy : (process_champion env c cands t).2 with _ | p
        · simp [detect_step, hxy]
        · simp [detect_step, hxy, dict_insert_lookup]
      · rw [if_neg (by simp [hca, hcl] : ¬ c ∈ a :: l)]
        rcases hxya : (process_champion env a cands t).2 with _ | q
        · simp [detect_step, hxya]
        · simp [detect_step, hxya, dict_insert_lookup, hca]

lemma dict_insert_keys_nodup {β : Type} (k : String) (v : β)
    (d : List (String × β)) (h : (d.map Prod.fst).Nodup) :
    ((dict_insert k v d).map Prod.fst).Nodup := by
  unfold dict_insert
  by_cases hany : (d.any fun e => e.1 = k) = true
  · rw [if_pos hany]
    have hkeys : (d.map fun e => if e.1 = k then (k, v) else e).map Prod.fst =
        d.map Prod.fst := by
      rw [List.map_map]
      apply List.map_congr_left
      intro e _
      by_cases he : e.1 = k
      · simp [he]
      · simp [he]
    rw [hkeys]
    exact h
  · rw [if_neg hany, List.map_append]
    refine List.Nodup.append h (List.nodup_singleton k) ?_
    intro a ha hak
    simp at hak
    subst hak
    obtain ⟨e, he, hek⟩ := List.mem_map.mp ha
    apply hany
    rw [List.any_eq_true]
    exact ⟨e, he, by simp [hek]⟩

lemma detect_fold_keys_nodup {Poly : Type} (env : DetectEnv Poly) (t : ℚ)
    (cands : List CCand) :
    ∀ (l : List String) (st : List (String × String) × List (String × (ℚ × ℚ))),
      (st.1.map Prod.fst).Nodup →
      (((l.foldl (detect_step env t cands) st).1).map Prod.fst).Nodup := by
  intro l
  induction l with
  | nil => intro st h; exact h
  | cons a l ih =>
    intro st h
    rw [List.foldl_cons]
    apply ih
    exact dict_insert_keys_nodup a _ st.1 h

lemma count_key_eq_one {β : Type} :
    ∀ (d : List (String × β)), (d.map Prod.fst).Nodup →
      ∀ (c : String) (v : β), d.lookup c = some v →
        (d.filter fun e => e.1 = c).length = 1 := by
  intro d
  induction d with
  | nil =>
    intro _ c v h
    simp [List.lookup] at h
  | cons e es ih =>
    intro hnd c v h
    obtain ⟨e1, e2⟩ := e
    rw [List.map_cons, List.nodup_cons] at hnd
    obtain ⟨hnotin, hnd'⟩ := hnd
    by_cases hce : c = e1
    · have hes : (es.filter fun e => e.1 = c) = [] := by
        rw [List.filter_eq_nil_iff]
        intro x hx
        simp only [decide_eq_true_eq]
        intro hxc
        have hmem : x.1 ∈ es.map Prod.fst := List.mem_map_of_mem Prod.fst hx
        rw [hxc, hce] at hmem
        exact hnotin hmem
      rw [List.filter_cons]
      rw [if_pos (by simp [hce])]
      simp [hes]
    · have hb : (c == e1) = false := beq_eq_false_iff_ne.mpr hce
      rw [List.lookup_cons] at h
      rw [hb] at h
      rw [List.filter_cons]
      simp only [decide_eq_true_eq]
      rw [if_neg (by simpa using fun hh => hce hh.symm)]
      exact ih hnd' c v h

lemma detect_str_lookup_full {Poly : Type} (env : DetectEnv Poly) (t : ℚ)
    (blueC redC : List CCand) (ally enemy : List String) (c : String) :
    (detect_champion_positions env blueC redC ally enemy t).1.lookup c =
      if c ∈ enemy then some (process_champion env c redC t).1
      else if c ∈ ally then some (process_champion env c blueC t).1
      else none := by
  unfold detect_champion_positions
  rw [detect_fold_str_lookup]
  by_cases he : c ∈ enemy
  · rw [if_pos he, if_pos he]
  · rw [if_neg he, if_neg he, detect_fold_str_lookup]
    by_cases ha : c ∈ ally
    · rw [if_pos ha, if_pos ha]
    · rw [if_neg ha, if_neg ha]
      rfl

lemma detect_xy_lookup_full {Poly : Type} (env : DetectEnv Poly) (t : ℚ)
    (blueC redC : List CCand) (ally enemy : List String) (c : String) :
    (detect_champion_positions env blueC redC ally enemy t).2.lookup c =
      if c ∈ enemy then
        (match (process_champion env c redC t).2 with
          | some p => some p
          | none => if c ∈ ally then (process_champion env c blueC t).2 else none)
      else if c ∈ ally then (process_champion env c blueC t).2 else none := by
  unfold detect_champion_positions
  rw [detect_fold_xy_lookup]
  have hinner : ((ally.foldl (detect_step env t blueC) ([], [])).2).lookup c =
      if c ∈ ally then (process_champion env c blueC t).2 else none := by
    rw [detect_fold_xy_lookup]
    by_cases ha : c ∈ ally
    · rw [if_pos ha, if_pos ha]
      rcases (process_champion env c blueC t).2 with _ | p <;> rfl
    · rw [if_neg ha, if_neg ha]
      rfl
  rw [hinner]

/-- C5: when a champion's icon asset is missing, unreadable, too small or
unresizable, `detect_champion_positions` (which raises no exception — the
embedding is total) reports that champion "Not visible" with no coordinates,
and every other champion's description and coordinates are exactly what they
would be had the failing champion not been in the rosters at all. -/
theorem detect_asset_error_isolated {Poly : Type} (env : DetectEnv Poly)
    (blueC redC : List CCand) (ally enemy : List String) (t : ℚ) (champ : String)
    (hbad : env.icon champ ≠ IconLoad.ok)
    (hmem : champ ∈ ally ∨ champ ∈ enemy) :
    (detect_champion_positions env blueC redC ally enemy t).1.lookup champ =
      some "Not visible"
    ∧ (detect_champion_positions env blueC redC ally enemy t).2.lookup champ = none
    ∧ ∀ c, c ≠ champ →
        (detect_champion_positions env blueC redC ally enemy t).1.lookup c =
          (detect_champion_positions env blueC redC (ally.filter (· ≠ champ))
            (enemy.filter (· ≠ champ)) t).1.lookup c
        ∧ (detect_champion_positions env blueC redC ally enemy t).2.lookup c =
          (detect_champion_positions env blueC redC (ally.filter (· ≠ champ))
            (enemy.filter (· ≠ champ)) t).2.lookup c := by
  have hblue := process_champion_bad_asset env champ blueC t hbad
  have hred := process_champion_bad_asset env champ redC t hbad
  refine ⟨?_, ?_, ?_⟩
  · rw [detect_str_lookup_full]
    by_cases he : champ ∈ enemy
    · rw [if_pos he, hred]
    · rw [if_neg he, if_pos (hmem.resolve_right he), hblue]
  · rw [detect_xy_lookup_full]
    by_cases he : champ ∈ enemy
    · rw [if_pos he, hred]
      simp only
      by_cases ha : champ ∈ ally
      · rw [if_pos ha, hblue]
      · rw [if_neg ha]
    · rw [if_neg he, if_pos (hmem.resolve_right he), hblue]
  · intro c hc
    have hfa : c ∈ ally.filter (· ≠ champ) ↔ c ∈ ally := by
      rw [List.mem_filter]
      simp [hc]
    have hfe : c ∈ enemy.filter (· ≠ champ) ↔ c ∈ enemy := by
      rw [List.mem_filter]
      simp [hc]
    rw [detect_str_lookup_full, detect_str_lookup_full,
      detect_xy_lookup_full, detect_xy_lookup_full]
    by_cases he : c ∈ enemy
    · rw [if_pos he, if_pos (hfe.mpr he), if_pos he, if_pos (hfe.mpr he)]
      by_cases ha : c ∈ ally
      · rw [if_pos ha, if_pos (hfa.mpr ha)]
        exact ⟨rfl, rfl⟩
      · rw [if_neg ha, if_neg (fun hh => ha (hfa.mp hh))]
        exact ⟨rfl, rfl⟩
    · rw [if_neg he, if_neg (fun hh => he (hfe.mp hh)),
        if_neg he, if_neg (fun hh => he (hfe.mp hh))]
      by_cases ha : c ∈ ally
      · rw [if_pos ha, if_pos (hfa.mpr ha), if_pos ha, if_pos (hfa.mpr ha)]
        exact ⟨rfl, rfl⟩
      · rw [if_neg ha, if_neg (fun hh => ha (hfa.mp hh)),
          if_neg ha, if_neg (fun hh => ha (hfa.mp hh))]
        exact ⟨rfl, rfl⟩

/-- Shared concrete environment for the detector witnesses: one region,
every icon missing, all scores zero. -/
def witnessEnv : DetectEnv Unit where
  minimapH := 100
  minimapW := 100
  iconSize := 12
  icon := fun _ => IconLoad.missing
  score := fun _ _ => 0
  within := fun _ _ _ => false
  polyDist := fun _ _ _ => 0
  regions := [⟨"river", ()⟩]

/-- Witness for C5: with the icon for "Ahri" missing, the detection over the
roster `["Ahri"]` marks it "Not visible". -/
theorem detect_asset_error_isolated_witness :
    (detect_champion_positions witnessEnv [] [] ["Ahri"] [] 0).1.lookup "Ahri" =
      some "Not visible" :=
  (detect_asset_error_isolated witnessEnv [] [] ["Ahri"] [] 0 "Ahri"
    (by simp [witnessEnv]) (Or.inl (by simp))).1

/-- C6: every champion of either roster has exactly one entry in the returned
description map (the rosters being disjoint, as the data model requires), and
it has an entry in the coordinate map exactly when its description is not
"Not visible".  The region list is required nonempty because the Python
descriptor raises on an empty one instead of returning. -/
theorem detect_result_map_entries {Poly : Type} (env : DetectEnv Poly)
    (blueC redC : List CCand) (ally enemy : List String) (t : ℚ)
    (hreg : env.regions ≠ [])
    (hdisj : ∀ c, c ∈ ally → c ∉ enemy)
    (c : String) (hc : c ∈ ally ∨ c ∈ enemy) :
    ((detect_champion_positions env blueC redC ally enemy t).1.filter
        fun e => e.1 = c).length = 1
    ∧ ((detect_champion_positions env blueC redC ally enemy t).2.lookup c ≠ none ↔
        (detect_champion_positions env blueC redC ally enemy t).1.lookup c ≠
          some "Not visible") := by
  have hnodup : (((detect_champion_positions env blueC redC ally enemy t).1).map
      Prod.fst).Nodup := by
    unfold detect_champion_positions
    apply detect_fold_keys_nodup
    apply detect_fold_keys_nodup
    simp
  by_cases he : c ∈ enemy
  · have hstr : (detect_champion_positions env blueC redC ally enemy t).1.lookup c =
        some (process_champion env c redC t).1 := by
      rw [detect_str_lookup_full, if_pos he]
    have hxy : (detect_champion_positions env blueC redC ally enemy t).2.lookup c =
        (process_champion env c redC t).2 := by
      rw [detect_xy_lookup_full, if_pos he]
      rcases hp : (process_champion env c redC t).2 with _ | p
      · simp only
        rw [if_neg (fun hh => hdisj c hh he)]
      · rfl
    refine ⟨count_key_eq_one _ hnodup c _ hstr, ?_⟩
    rw [hstr, hxy]
    constructor
    · intro h1 h2
      have hnv : (process_champion env c redC t).1 = "Not visible" := by
        injection h2
      exact h1 ((process_champion_visible_iff env c redC t).mpr hnv)
    · intro h1 h2
      exact h1 (by rw [(process_champion_visible_iff env c redC t).mp h2])
  · have ha : c ∈ ally := hc.resolve_right he
    have hstr : (detect_champion_positions env blueC redC ally enemy t).1.lookup c =
        some (process_champion env c blueC t).1 := by
      rw [detect_str_lookup_full, if_neg he, if_pos ha]
    have hxy : (detect_champion_positions env blueC redC ally enemy t).2.lookup c =
        (process_champion env c blueC t).2 := by
      rw [detect_xy_lookup_full, if_neg he, if_pos ha]
    refine ⟨count_key_eq_one _ hnodup c _ hstr, ?_⟩
    rw [hstr, hxy]
    constructor
    · intro h1 h2
      have hnv : (process_champion env c blueC t).1 = "Not visible" := by
        injection h2
      exact h1 ((process_champion_visible_iff env c blueC t).mpr hnv)
    · intro h1 h2
      exact h1 (by rw [(process_champion_visible_iff env c blueC t).mp h2])

/-- Witness for C6: the champion "Ahri" of the ally roster has exactly one
entry in the description map of a concrete call. -/
theorem detect_result_map_entries_witness :
    ((detect_champion_positions witnessEnv [] [] ["Ahri"] [] 0).1.filter
        fun e => e.1 = "Ahri").length = 1 :=
  (detect_result_map_entries witnessEnv [] [] ["Ahri"] [] 0
    (by simp [witnessEnv]) (by simp) "Ahri" (Or.inl (by simp))).1

end LolCoach
